import Mathlib

/-!
# dbx: error reporter (`syntax/errors.go`) and Go code renderer (`code/golang/renderer.go`)

A shallow embedding of the functions of the two files and the properties of
their behaviour.

Conventions of the embedding:

* a Go `[]byte` / byte string of `syntax/errors.go` is a `List Nat` (one number per byte);
* a Go `int` is an `Int`; arithmetic on the fields of a position, which can hold
  any 64-bit value, wraps as in Go (`wrapInt`); indexes that were checked to lie
  inside a slice are `Nat` and cannot wrap;
* a Go panic (index out of range, slice bounds, negative repeat count) is `none`;
* a Go `error` result is `Except.error`;
* a Go `string` of `code/golang/renderer.go` is a `String`: a text of valid runes;
* functions of other packages whose code is not part of the two files are
  fields of an environment (`SyntaxEnv`, `RenderEnv`) and are assumed pure.
-/

namespace Dbx

/-! ## syntax/errors.go : data -/

/-- The byte `'\n'`. -/
def NL : Nat := 10

/-- The byte `'\t'`. -/
def TAB : Nat := 9

/-- The byte `' '`. -/
def SP : Nat := 32

/-- The byte `'^'`. -/
def CARET : Nat := 94

/-- Go `int` arithmetic (64 bits): the value of an integer expression after
two's-complement wrap-around. Wrapping the final value of an expression built
from `+`, `-` and `*` is the same as wrapping after every operation. -/
def wrapInt (x : Int) : Int :=
  (x + 9223372036854775808) % 18446744073709551616 - 9223372036854775808

/-- Go `text/scanner.Position`. -/
structure Position where
  Filename : String
  Offset : Int
  Line : Int
  Column : Int
deriving DecidableEq, Repr

/-! ## syntax/errors.go : lineAround -/

/-- First loop of `lineAround`: `for i := offset - 1; i >= 0; i--`.
The argument is `i + 1`; the result is `start`. Reading `data[i]` outside
the slice panics. -/
def lineStart (data : List Nat) : Nat → Option Nat
  | 0 => some 0
  | i + 1 =>
    match data[i]? with
    | none => none
    | some b => if b = NL then some (i + 1) else lineStart data i

/-- Second loop of `lineAround`: `for i := offset; i < len(data); i++`.
The first argument bounds the number of iterations (it is `len(data) - offset`
at the call); the second is `i`. -/
def lineEnd (data : List Nat) : Nat → Nat → Option Nat
  | 0, i => if i < data.length then none else some data.length
  | fuel + 1, i =>
    if i < data.length then
      match data[i]? with
      | none => none
      | some b => if b = NL then some i else lineEnd data fuel (i + 1)
    else some data.length

/-- Go `lineAround(data, offset)`: `(start, end)`. A negative `offset` skips
the first loop and panics on the first read `data[offset]` of the second. -/
def lineAround (data : List Nat) (offset : Int) : Option (Nat × Nat) :=
  match lineStart data offset.toNat with
  | none => none
  | some start =>
    if offset < 0 then none
    else
      match lineEnd data (data.length - offset.toNat) offset.toNat with
      | none => none
      | some e => some (start, e)

/-- Go slice expression `data[lo:hi]`; panics unless `lo <= hi <= len(data)`. -/
def slice (data : List Nat) (lo hi : Nat) : Option (List Nat) :=
  if lo ≤ hi ∧ hi ≤ data.length then some ((data.drop lo).take (hi - lo)) else none

/-! ## syntax/errors.go : generateContext -/

/-- Go `strings.Replace(s, "\t", "    ", -1)`. -/
def replaceTabs : List Nat → List Nat
  | [] => []
  | b :: rest => if b = TAB then SP :: SP :: SP :: SP :: replaceTabs rest else b :: replaceTabs rest

/-- Go `strings.Count(s, "\t")`. -/
def countTabs (s : List Nat) : Nat := s.count TAB

/-- Go `strings.Repeat(string(b), n)`; panics on a negative count. -/
def repeatByte (b : Nat) (n : Int) : Option (List Nat) :=
  if n < 0 then none else some (List.replicate n.toNat b)

/-- Decimal digits of a natural number, most significant first, as ASCII bytes.
The first argument bounds the number of digits. -/
def decimalAux : Nat → Nat → List Nat → List Nat
  | 0, _, acc => acc
  | fuel + 1, n, acc =>
    if n < 10 then (n + 48) :: acc else decimalAux fuel (n / 10) ((n % 10 + 48) :: acc)

/-- Decimal representation of a natural number as ASCII bytes. -/
def decimal (n : Nat) : List Nat := decimalAux (n + 1) n []

/-- Go `fmt.Sprintf("% 4d", n)`: a `-` for a negative number and a space for the
elided sign otherwise, the decimal digits, padded on the left with spaces to
width 4. -/
def sprintf4d (n : Int) : List Nat :=
  let body := (if n < 0 then 45 else SP) :: decimal n.natAbs
  List.replicate (4 - body.length) SP ++ body

/-- Go `fmt.Sprintf("% 4d: ", n)`. -/
def sprintfLine (n : Int) : List Nat := sprintf4d n ++ [58, SP]

/-- The optional preceding-line row of `generateContext` (the `if line_start > 0` block). -/
def beforeRow (source : List Nat) (pos : Position) (line_start : Nat) : Option (List Nat) :=
  if line_start > 0 then
    match lineAround source ((line_start : Int) - 1) with
    | none => none
    | some (before_start, before_end) =>
      match slice source before_start before_end with
      | none => none
      | some before_line =>
        some (sprintfLine (wrapInt (pos.Line - 1)) ++ replaceTabs before_line ++ [NL])
  else some []

/-- Go `generateContext(source, pos, length)`. -/
def generateContext (source : List Nat) (pos : Position) (length : Int) : Option (List Nat) :=
  if pos.Offset > source.length then none
  else
    match lineAround source pos.Offset with
    | none => none
    | some (line_start, line_end) =>
      match slice source line_start line_end with
      | none => none
      | some line =>
        match beforeRow source pos line_start with
        | none => none
        | some context_bytes =>
          let tabs : Int := countTabs line
          let line := replaceTabs line
          let context_bytes := context_bytes ++ sprintfLine pos.Line ++ line ++ [NL]
          let length := if length ≤ 0 then 1 else length
          let offset : Int := wrapInt (tabs * 4 + pos.Column - 1 - tabs + 6)
          match repeatByte SP offset, repeatByte CARET length with
          | some spaces, some carets => some (context_bytes ++ (spaces ++ carets))
          | _, _ => none

/-- The lines of a text: the maximal newline-free pieces, in order
(a text with `n` newlines has `n + 1` lines). -/
def splitLines : List Nat → List (List Nat)
  | [] => [[]]
  | b :: rest =>
    if b = NL then [] :: splitLines rest
    else
      match splitLines rest with
      | [] => [[b]]
      | l :: ls => (b :: l) :: ls

/-- Index (0-based) of the line that holds byte offset `offset`: the number of
newlines before it. -/
def lineIndex (source : List Nat) (offset : Nat) : Nat := (source.take offset).count NL

/-- The line of a source that holds byte offset `offset`. -/
def lineAt (source : List Nat) (offset : Nat) : List Nat :=
  (splitLines source).getD (lineIndex source offset) []

/-- The decimal numeral of a natural number, as ASCII bytes. -/
def decimalDigits (n : Nat) : List Nat := (Nat.toDigits 10 n).map Char.toNat

/-- The label of a row: the line number as a decimal numeral after its sign slot
(a space, or `-` for a negative number), right-aligned in a field of width 4,
then a colon and a space. -/
def lineLabel (n : Int) : List Nat :=
  List.replicate (4 - (1 + (decimalDigits n.natAbs).length)) 32 ++
    [if n < 0 then 45 else 32] ++ decimalDigits n.natAbs ++ [58, 32]

/-- A text with every tab (byte 9) replaced by four spaces (byte 32). -/
def expandTabs (line : List Nat) : List Nat :=
  line.flatMap (fun b => if b = 9 then [32, 32, 32, 32] else [b])

/-- Number of bytes that precede the first caret on the last row of a rendered
context. -/
def caretColumn (out : List Nat) : Nat :=
  (((splitLines out).getLast?.getD []).takeWhile (fun b => b != CARET)).length

/-- Number of bytes that precede the offending character on the rendered
offending-line row: the line-number prefix and the tab-expanded text of `line`
before column `column` (1-based). -/
def spanColumn (lineNo : Int) (line : List Nat) (column : Nat) : Nat :=
  (sprintfLine lineNo).length + (replaceTabs (line.take (column - 1))).length

/-! ## syntax/errors.go : errors, flagField, tokenFlagField -/

/-- Go `ast.Bool`: a boolean with the position of its definition. -/
structure AstBool where
  Pos : Position
  Value : Bool
deriving DecidableEq, Repr

/-- An error of class `syntax.Error` made by `Error.NewWith(message,
setErrorPosition(pos))`: the message and the attached position. -/
structure SyntaxError where
  message : String
  position : Position
deriving DecidableEq, Repr

/-- Go `*tupleNode`, of which the functions here read the position only (`getPos`). -/
structure TupleNode where
  pos : Position
deriving DecidableEq, Repr

/-- Go `*tokenNode`, of which the functions here read the position only (`getPos`). -/
structure TokenNode where
  pos : Position
deriving DecidableEq, Repr

/-- Go interface `node`. -/
inductive Node where
  | tuple (n : TupleNode)
  | token (n : TokenNode)
deriving DecidableEq, Repr

/-- Go `node.getPos()`. -/
def Node.getPos : Node → Position
  | .tuple n => n.pos
  | .token n => n.pos

/-- Library and helper functions the setters call: `Position.String()` of
`text/scanner`, and `boolFromValue` of package `syntax` (a nil result is `none`). -/
structure SyntaxEnv where
  posString : Position → String
  boolFromValue : Node → Bool → Option AstBool

/-- Go `errorAt(n, format, args...)`, given the text `fmt.Sprintf(format, args...)`. -/
def errorAt (env : SyntaxEnv) (n : Node) (text : String) : SyntaxError :=
  { message := env.posString n.getPos ++ ": " ++ text, position := n.getPos }

/-- Go `previouslyDefined(n, kind, field, where)`. -/
def previouslyDefined (env : SyntaxEnv) (n : Node) (kind field : String)
    (whr : Position) : SyntaxError :=
  errorAt env n
    (field ++ " already defined on " ++ kind ++ ". previous definition at " ++ env.posString whr)

/-- Go `flagField(kind, field, val)`: the returned setter, as a function of the
value stored in `*val` and of the node, giving the error (`none` for nil) and the
value stored afterwards. -/
def flagField (env : SyntaxEnv) (kind field : String) (val : Option AstBool)
    (node : TupleNode) : Option SyntaxError × Option AstBool :=
  match val with
  | some v => (some (previouslyDefined env (.tuple node) kind field v.Pos), val)
  | none => (none, env.boolFromValue (.tuple node) true)

/-- Go `tokenFlagField(kind, field, val)`, as `flagField`. -/
def tokenFlagField (env : SyntaxEnv) (kind field : String) (val : Option AstBool)
    (node : TokenNode) : Option SyntaxError × Option AstBool :=
  match val with
  | some v => (some (previouslyDefined env (.token node) kind field v.Pos), val)
  | none => (none, env.boolFromValue (.token node) true)

/-- A setter applied to a sequence of nodes in order: the result of every
application and the value stored at the end. -/
def applyAll {N : Type} (setter : Option AstBool → N → Option SyntaxError × Option AstBool) :
    Option AstBool → List N → List (Option SyntaxError) × Option AstBool
  | val, [] => ([], val)
  | val, n :: rest =>
    let r := setter val n
    let rs := applyAll setter r.2 rest
    (r.1 :: rs.1, rs.2)

/-! ## code/golang/renderer.go : data

Values of types declared outside the file are kept symbolic: an IR node is a
pointer (`ptr`) with the fields the renderer reads, and the value that a
`...FromIR` function builds from an IR node and a dialect is the `Data`
constructor that names the node and the dialect. -/

/-- Go `sql.Features`, of which the renderer reads `Returning`. -/
structure Features where
  Returning : Bool
deriving DecidableEq, Repr

/-- Go `sql.Dialect` (an interface): the results of `Name()` and `Features()`,
and the identity of the implementation. -/
structure Dialect where
  impl : Nat
  Name : String
  Features : Features
deriving DecidableEq, Repr

/-- Go `*ir.Model`: equality is pointer identity. -/
structure Model where
  ptr : Nat
deriving DecidableEq, Repr

/-- Go `*ir.Insert`. -/
structure Insert where
  ptr : Nat
  Model : Model
deriving DecidableEq, Repr

/-- Go `*ir.Update`. -/
structure Update where
  ptr : Nat
  Model : Model
deriving DecidableEq, Repr

/-- Go `*ir.Select`: `Fields` holds the pointers of the selected fields, `One`
is the result of the method `One()`. -/
structure Select where
  ptr : Nat
  Fields : List Nat
  One : Bool
deriving DecidableEq, Repr

/-- Go `*ir.Count`. -/
structure Count where
  ptr : Nat
deriving DecidableEq, Repr

/-- Go `*ir.Delete`: `One` is the result of the method `One()`. -/
structure Delete where
  ptr : Nat
  One : Bool
deriving DecidableEq, Repr

/-- Go `*ir.Root`; `Models` is the result of `root.Models.Models()`. -/
structure Root where
  Models : List Model
  Selects : List Select
  Inserts : List Insert
  Updates : List Update
  Deletes : List Delete
  Counts : List Count
deriving DecidableEq, Repr

/-- Go `*ModelStruct` (package golang). -/
structure ModelStruct where
  ptr : Nat
deriving DecidableEq, Repr

/-- Local type `headerImport` of `renderHeader`. -/
structure HeaderImport where
  As : String
  Package : String
deriving DecidableEq, Repr

/-- Local type `headerDialect` of `renderHeader`. -/
structure HeaderDialect where
  Name : String
  SchemaSQL : String
deriving DecidableEq, Repr

/-- Local type `headerParams` of `renderHeader`. -/
structure HeaderParams where
  Package : String
  ExtraImports : List HeaderImport
  Dialects : List HeaderDialect
  Structs : List ModelStruct
  StructsReverse : List ModelStruct
deriving DecidableEq, Repr

/-- Local type `funcDecl` of `renderFunc`. -/
structure FuncDecl where
  ReceiverBase : String
  Signature : String
  Body : String
deriving DecidableEq, Repr

/-- The values handed to templates. -/
inductive Data where
  /-- Go `nil`. -/
  | nil
  /-- The `headerParams` of `renderHeader`. -/
  | header (params : HeaderParams)
  /-- Go `ResultStructFromSelect(sel)`. -/
  | resultStruct (sel : Select)
  /-- Go `InsertFromIR(ir_ins, dialect)`. -/
  | insert (ins : Insert) (dialect : Dialect)
  /-- Go `SelectFromIR(ir_sel, dialect)`. -/
  | select (sel : Select) (dialect : Dialect)
  /-- Go `CountFromIR(ir_count, dialect)`. -/
  | count (cnt : Count) (dialect : Dialect)
  /-- Go `CountFromIR(ir_count, dialect)` with `SQL` set to `sql.RenderHas(dialect, ir_count)`. -/
  | has (cnt : Count) (dialect : Dialect)
  /-- Go `UpdateFromIR(ir_upd, dialect)`. -/
  | update (upd : Update) (dialect : Dialect)
  /-- Go `DeleteFromIR(ir_del, dialect)`. -/
  | delete (del : Delete) (dialect : Dialect)
  /-- The `getLast` of `renderGetLast`: `VarFromModel(model)` and
  `sql.RenderGetLast(dialect, model)`. -/
  | getLast (model : Model) (dialect : Dialect)
  /-- The `funcDecl` of `renderFunc`. -/
  | decl (d : FuncDecl)
  /-- The map of `renderFooter`, with its one key `"Funcs"`. -/
  | footer (funcs : List String)
deriving DecidableEq, Repr

/-- The template fields of `Renderer`. -/
inductive Template where
  | header | lru | footer | misc | ins | sel | sel_all | sel_paged | has | count
  | upd | del | del_all | get_last
deriving DecidableEq, Repr

/-- Errors of `RenderCode`. -/
inductive RenderError where
  /-- Go `Error.New("unsupported dialect %q", name)`. -/
  | unsupportedDialect (name : String)
  /-- An error returned by `tmplutil.Render`. -/
  | template (msg : String)
deriving DecidableEq, Repr

/-- Go `Options`. -/
structure Options where
  Package : String
deriving DecidableEq, Repr

/-- Go `Renderer`: the set of keys of the map `signatures` and the options; its
template fields are the constructors of `Template`. -/
structure Renderer where
  signatures : List String
  options : Options
deriving DecidableEq, Repr

/-- Functions of other packages that the renderer calls: `tmplutil.Render`
(the text it writes, or its error), `sql.RenderSchema`, `ModelStructsFromIR`,
`unicode.IsUpper` and `format.Source`. -/
structure RenderEnv where
  Render : Template → String → Data → Except String String
  RenderSchema : Dialect → Root → String
  ModelStructsFromIR : List Model → List ModelStruct
  IsUpper : Char → Bool
  formatSource : String → Except String String

/-- Result of a method that writes to the buffer and may change the Renderer:
the buffer after the call or the error, and the Renderer after the call. -/
abbrev Step := Except RenderError String × Renderer

/-! ## code/golang/renderer.go : functions -/

/-- Go `New(loader, options)`, the loading of the templates left out: the
Renderer starts with an empty `signatures` map. -/
def New (options : Options) : Renderer :=
  { signatures := [], options := options }

/-- Go `utf8.DecodeRuneInString(s)`, first result: the first rune, and
`utf8.RuneError` (U+FFFD) for the empty string. -/
def decodeRuneInString (s : String) : Char :=
  s.data.headD (Char.ofNat 0xFFFD)

/-- Go `isExported(signature)`. -/
def isExported (env : RenderEnv) (signature : String) : Bool :=
  env.IsUpper (decodeRuneInString signature)

/-- Go `r.signatures[sig] = true`. -/
def addSignature (r : Renderer) (sig : String) : Renderer :=
  { r with signatures := if sig ∈ r.signatures then r.signatures else r.signatures ++ [sig] }

/-- Go `(*Renderer).renderFunc(tmpl, w, data, dialect)`. -/
def renderFunc (env : RenderEnv) (r : Renderer) (tmpl : Template) (w : String)
    (data : Data) (dialect : Dialect) : Step :=
  match env.Render tmpl "signature" data with
  | .error e => (.error (.template e), r)
  | .ok signature =>
    match env.Render tmpl "body" data with
    | .error e => (.error (.template e), r)
    | .ok body =>
      let decl : FuncDecl :=
        { ReceiverBase := dialect.Name, Signature := signature, Body := body }
      match env.Render .misc "decl" (.decl decl) with
      | .error e => (.error (.template e), r)
      | .ok text =>
        (.ok (w ++ text), if isExported env decl.Signature then addSignature r decl.Signature else r)

/-- Go `(*Renderer).renderStruct(w, s)` with `s = ResultStructFromSelect(sel)`. -/
def renderStruct (env : RenderEnv) (w : String) (sel : Select) : Except RenderError String :=
  match env.Render .misc "struct" (.resultStruct sel) with
  | .error e => .error (.template e)
  | .ok text => .ok (w ++ text)

/-- Go `(*Renderer).renderInsert(w, ir_ins, dialect)`. -/
def renderInsert (env : RenderEnv) (r : Renderer) (w : String) (ir_ins : Insert)
    (dialect : Dialect) : Step :=
  renderFunc env r .ins w (.insert ir_ins dialect) dialect

/-- Go `(*Renderer).renderSelect(w, ir_sel, dialect)`. -/
def renderSelect (env : RenderEnv) (r : Renderer) (w : String) (ir_sel : Select)
    (dialect : Dialect) : Step :=
  if ir_sel.One then renderFunc env r .sel w (.select ir_sel dialect) dialect
  else renderFunc env r .sel_all w (.select ir_sel dialect) dialect

/-- Go `(*Renderer).renderCount(w, ir_count, dialect)`. -/
def renderCount (env : RenderEnv) (r : Renderer) (w : String) (ir_count : Count)
    (dialect : Dialect) : Step :=
  match renderFunc env r .count w (.count ir_count dialect) dialect with
  | (.error e, r1) => (.error e, r1)
  | (.ok w1, r1) => renderFunc env r1 .has w1 (.has ir_count dialect) dialect

/-- Go `(*Renderer).renderUpdate(w, ir_upd, dialect)`. -/
def renderUpdate (env : RenderEnv) (r : Renderer) (w : String) (ir_upd : Update)
    (dialect : Dialect) : Step :=
  renderFunc env r .upd w (.update ir_upd dialect) dialect

/-- Go `(*Renderer).renderDelete(w, ir_del, dialect)`. -/
def renderDelete (env : RenderEnv) (r : Renderer) (w : String) (ir_del : Delete)
    (dialect : Dialect) : Step :=
  if ir_del.One then renderFunc env r .del w (.delete ir_del dialect) dialect
  else renderFunc env r .del_all w (.delete ir_del dialect) dialect

/-- Go `(*Renderer).renderGetLast(w, model, dialect)`. -/
def renderGetLast (env : RenderEnv) (r : Renderer) (w : String) (model : Model)
    (dialect : Dialect) : Step :=
  renderFunc env r .get_last w (.getLast model dialect) dialect

/-- Lexicographic `<=` on lists of runes. -/
def charsLe : List Char → List Char → Bool
  | [], _ => true
  | _ :: _, [] => false
  | x :: xs, y :: ys =>
    if x.toNat < y.toNat then true
    else if y.toNat < x.toNat then false
    else charsLe xs ys

/-- Go `a <= b` on strings: lexicographic on the bytes of the UTF-8 encoding,
which is lexicographic on the runes. -/
def strLe (a b : String) : Prop := charsLe a.data b.data = true

instance strLe_decidable : DecidableRel strLe := fun a b =>
  inferInstanceAs (Decidable (charsLe a.data b.data = true))

/-- Go `sort.Sort(sort.StringSlice(funcs))`: the strings in ascending order. -/
def sortStrings (funcs : List String) : List String :=
  funcs.insertionSort strLe

/-- The list `funcs` that `renderFooter` builds from the keys of `r.signatures`
and sorts. -/
def footerFuncs (r : Renderer) : List String :=
  sortStrings r.signatures

/-- Go `(*Renderer).renderFooter(w)`. -/
def renderFooter (env : RenderEnv) (r : Renderer) (w : String) : Except RenderError String :=
  match env.Render .footer "" (.footer (footerFuncs r)) with
  | .error e => .error (.template e)
  | .ok text => .ok (w ++ text)

/-- The `switch dialect.Name()` of `renderHeader`: the driver of a built-in
dialect, `none` for the `default` case. -/
def driverOf (name : String) : Option String :=
  if name = "postgres" then some "github.com/lib/pq"
  else if name = "sqlite3" then some "github.com/mattn/go-sqlite3"
  else none

/-- The loop `for _, dialect := range dialects` of `renderHeader`. -/
def headerDialects (env : RenderEnv) (root : Root) :
    List Dialect → HeaderParams → Except RenderError HeaderParams
  | [], params => .ok params
  | dialect :: rest, params =>
    let dialect_schema := env.RenderSchema dialect root
    match driverOf dialect.Name with
    | none => .error (.unsupportedDialect dialect.Name)
    | some driver =>
      headerDialects env root rest
        { params with
          ExtraImports := params.ExtraImports ++ [{ As := "_", Package := driver }],
          Dialects := params.Dialects ++ [{ Name := dialect.Name, SchemaSQL := dialect_schema }] }

/-- The `headerParams` that `renderHeader` builds, or the error of its loop. -/
def headerParams (env : RenderEnv) (r : Renderer) (root : Root) (dialects : List Dialect) :
    Except RenderError HeaderParams :=
  let structs := env.ModelStructsFromIR root.Models
  headerDialects env root dialects
    { Package := r.options.Package, ExtraImports := [], Dialects := [],
      Structs := structs, StructsReverse := structs.reverse }

/-- Go `(*Renderer).renderHeader(w, root, dialects)`. -/
def renderHeader (env : RenderEnv) (r : Renderer) (w : String) (root : Root)
    (dialects : List Dialect) : Except RenderError String :=
  match headerParams env r root dialects with
  | .error e => .error e
  | .ok params =>
    match env.Render .header "" (.header params) with
    | .error e => .error (.template e)
    | .ok text => .ok (w ++ text)

/-- The loop over `root.Selects` of `RenderCode` that renders the result structs. -/
def renderStructs (env : RenderEnv) : List Select → String → Except RenderError String
  | [], w => .ok w
  | sel :: rest, w =>
    if sel.Fields.length < 2 then renderStructs env rest w
    else
      match renderStruct env w sel with
      | .error e => .error e
      | .ok w1 => renderStructs env rest w1

/-- A loop `for _, x := range xs` whose body calls a render method and returns
its error, if any. -/
def forEach {α : Type} (body : α → String → Renderer → Step) :
    List α → String → Renderer → Step
  | [], w, r => (.ok w, r)
  | x :: rest, w, r =>
    match body x w r with
    | (.error e, r1) => (.error e, r1)
    | (.ok w1, r1) => forEach body rest w1 r1

/-- The loop `for _, model := range gets` of `RenderCode`; `done` holds the keys
of the map `done`. -/
def renderGetLasts (env : RenderEnv) (dialect : Dialect) :
    List Model → List Model → String → Renderer → Step
  | [], _, w, r => (.ok w, r)
  | model :: rest, done, w, r =>
    if model ∈ done then renderGetLasts env dialect rest done w r
    else
      match renderGetLast env r w model dialect with
      | (.error e, r1) => (.error e, r1)
      | (.ok w1, r1) => renderGetLasts env dialect rest (model :: done) w1 r1

/-- The loop `for _, ins := range root.Inserts` of `RenderCode`: appends the
model of the insert to `gets`, then renders the insert. -/
def renderInserts (env : RenderEnv) (dialect : Dialect) :
    List Insert → List Model → String → Renderer →
      Except RenderError (List Model × String) × Renderer
  | [], gets, w, r => (.ok (gets, w), r)
  | ins :: rest, gets, w, r =>
    match renderInsert env r w ins dialect with
    | (.error e, r1) => (.error e, r1)
    | (.ok w1, r1) => renderInserts env dialect rest (gets ++ [ins.Model]) w1 r1

/-- The loop `for _, upd := range root.Updates` of `RenderCode`: appends the
model of the update to `gets`, then renders the update. -/
def renderUpdates (env : RenderEnv) (dialect : Dialect) :
    List Update → List Model → String → Renderer →
      Except RenderError (List Model × String) × Renderer
  | [], gets, w, r => (.ok (gets, w), r)
  | upd :: rest, gets, w, r =>
    match renderUpdate env r w upd dialect with
    | (.error e, r1) => (.error e, r1)
    | (.ok w1, r1) => renderUpdates env dialect rest (gets ++ [upd.Model]) w1 r1

/-- The body of the loop `for _, dialect := range dialects` of `RenderCode`. -/
def renderDialect (env : RenderEnv) (root : Root) (dialect : Dialect) (w : String)
    (r : Renderer) : Step :=
  match renderInserts env dialect root.Inserts [] w r with
  | (.error e, r1) => (.error e, r1)
  | (.ok (gets, w1), r1) =>
    match forEach (fun sel w r => renderSelect env r w sel dialect) root.Selects w1 r1 with
    | (.error e, r2) => (.error e, r2)
    | (.ok w2, r2) =>
      match forEach (fun cnt w r => renderCount env r w cnt dialect) root.Counts w2 r2 with
      | (.error e, r3) => (.error e, r3)
      | (.ok w3, r3) =>
        match renderUpdates env dialect root.Updates gets w3 r3 with
        | (.error e, r4) => (.error e, r4)
        | (.ok (gets, w4), r4) =>
          match forEach (fun del w r => renderDelete env r w del dialect) root.Deletes w4 r4 with
          | (.error e, r5) => (.error e, r5)
          | (.ok w5, r5) =>
            if gets.length > 0 ∧ ¬ dialect.Features.Returning then
              renderGetLasts env dialect gets [] w5 r5
            else (.ok w5, r5)

/-- Go `RenderCode` up to and with `renderFooter`: the text of the buffer, or the
error returned. -/
def renderBuffer (env : RenderEnv) (r : Renderer) (root : Root) (dialects : List Dialect) :
    Step :=
  match renderHeader env r "" root dialects with
  | .error e => (.error e, r)
  | .ok buf =>
    match env.Render .lru "" .nil with
    | .error e => (.error (.template e), r)
    | .ok text =>
      match renderStructs env root.Selects (buf ++ text) with
      | .error e => (.error e, r)
      | .ok buf1 =>
        match forEach (renderDialect env root) dialects buf1 r with
        | (.error e, r1) => (.error e, r1)
        | (.ok buf2, r1) =>
          match renderFooter env r1 buf2 with
          | .error e => (.error e, r1)
          | .ok buf3 => (.ok buf3, r1)

/-- Go `(*Renderer).RenderCode(root, dialects)`: the rendered text or the error,
and the Renderer after the call. -/
def RenderCode (env : RenderEnv) (r : Renderer) (root : Root) (dialects : List Dialect) :
    Step :=
  match renderBuffer env r root dialects with
  | (.error e, r1) => (.error e, r1)
  | (.ok buf, r1) =>
    match env.formatSource buf with
    | .ok rendered => (.ok rendered, r1)
    | .error _ => (.ok buf, r1)

/-! ## Function renderings of a call of RenderCode -/

/-- One call of `renderFunc`: the template, the data and the dialect. -/
structure FuncCall where
  tmpl : Template
  data : Data
  dialect : Dialect
deriving DecidableEq, Repr

/-- Calls of `renderFunc` made one after the other on the same buffer, up to the
first that fails. -/
def runFuncs (env : RenderEnv) : List FuncCall → String → Renderer → Step :=
  forEach (fun c w r => renderFunc env r c.tmpl w c.data c.dialect)

/-- Calls of `renderFunc` made one after the other by a Renderer, failed calls
included: the Renderer after the last. -/
def runAll (env : RenderEnv) : List FuncCall → String → Renderer → Renderer
  | [], _, r => r
  | c :: rest, w, r =>
    match renderFunc env r c.tmpl w c.data c.dialect with
    | (.ok w1, r1) => runAll env rest w1 r1
    | (.error _, r1) => runAll env rest w r1

/-- The call of `renderFunc` described by `c` succeeds and its signature is `sig`:
the three template renders succeed, the first giving `sig`. -/
def producedBy (env : RenderEnv) (c : FuncCall) (sig : String) : Prop :=
  env.Render c.tmpl "signature" c.data = .ok sig ∧
    ∃ body text, env.Render c.tmpl "body" c.data = .ok body ∧
      env.Render .misc "decl"
        (.decl { ReceiverBase := c.dialect.Name, Signature := sig, Body := body }) = .ok text

/-- The text that the call of `renderFunc` described by `c` appends to the
buffer (empty when the call fails). -/
def funcText (env : RenderEnv) (c : FuncCall) : String :=
  match env.Render c.tmpl "signature" c.data, env.Render c.tmpl "body" c.data with
  | .ok sig, .ok body =>
    match env.Render .misc "decl"
        (.decl { ReceiverBase := c.dialect.Name, Signature := sig, Body := body }) with
    | .ok text => text
    | .error _ => ""
  | _, _ => ""

/-- Concatenation of texts. -/
def concat : List String → String
  | [] => ""
  | t :: rest => t ++ concat rest

/-- The function renderings of the queries of a root for one dialect, in the
order of `RenderCode`: inserts, selects, counts (count, then has), updates,
deletes. -/
def queryFuncs (root : Root) (d : Dialect) : List FuncCall :=
  root.Inserts.map (fun ins => { tmpl := .ins, data := .insert ins d, dialect := d }) ++
  (root.Selects.map (fun sel =>
      { tmpl := if sel.One then .sel else .sel_all, data := .select sel d, dialect := d }) ++
  ((root.Counts.map (fun cnt =>
      [{ tmpl := .count, data := .count cnt d, dialect := d },
       { tmpl := .has, data := .has cnt d, dialect := d }])).flatten ++
  (root.Updates.map (fun upd => { tmpl := .upd, data := .update upd d, dialect := d }) ++
   root.Deletes.map (fun del =>
      { tmpl := if del.One then .del else .del_all, data := .delete del d, dialect := d }))))

/-- The models that are the target of an insert or of an update of the root:
those of the inserts first, then those of the updates, repetitions kept. -/
def getLastTargets (root : Root) : List Model :=
  root.Inserts.map (fun ins => ins.Model) ++ root.Updates.map (fun upd => upd.Model)

/-- The distinct models of a list, each at the place of its first occurrence. -/
def distinctFirst : List Model → List Model
  | [] => []
  | m :: rest => m :: (distinctFirst rest).filter (fun x => x ≠ m)

/-- The call of `renderFunc` of the get-last accessor of a model. -/
def getLastCall (d : Dialect) (m : Model) : FuncCall :=
  { tmpl := .get_last, data := .getLast m d, dialect := d }

/-- The get-last accessors of a dialect: none when the dialect has `Returning`,
else one per distinct target model. -/
def getLastFuncs (root : Root) (d : Dialect) : List FuncCall :=
  if d.Features.Returning then []
  else (distinctFirst (getLastTargets root)).map (getLastCall d)

/-- All function renderings of a root for one dialect. -/
def dialectFuncs (root : Root) (d : Dialect) : List FuncCall :=
  queryFuncs root d ++ getLastFuncs root d

/-- All function renderings of a root for a list of dialects. -/
def allFuncs (root : Root) (dialects : List Dialect) : List FuncCall :=
  (dialects.map (dialectFuncs root)).flatten

/-! ## Auxiliary definitions of the statements -/

/-- The underline row built by `generateContext` for a line with `tabs` tabs. -/
def underlineRow (tabs : Nat) (column length : Int) : List Nat :=
  List.replicate ((tabs : Int) * 4 + column - 1 - tabs + 6).toNat SP ++
    List.replicate (max length 1).toNat CARET

/-- Sequencing of two steps: the second runs on the buffer and Renderer the first
left, unless the first failed. -/
def Step.andThen (s : Step) (k : String → Renderer → Step) : Step :=
  match s with
  | (.error e, r) => (.error e, r)
  | (.ok w, r) => k w r

/-- Two Renderers with the same options that hold the same set of signatures
(the keys of a map: no key is held twice). -/
def sameSignatures (r r2 : Renderer) : Prop :=
  r.options = r2.options ∧ r.signatures.Nodup ∧ r2.signatures.Nodup ∧
    ∀ s, s ∈ r.signatures ↔ s ∈ r2.signatures

/-- A dialect name that the `switch` of `renderHeader` knows. -/
def supportedName (name : String) : Prop := name = "postgres" ∨ name = "sqlite3"

instance supportedName_decidable (name : String) : Decidable (supportedName name) :=
  inferInstanceAs (Decidable (name = "postgres" ∨ name = "sqlite3"))

/-- The import that `renderHeader` adds for a dialect with a known name. -/
def headerImportOf (d : Dialect) : HeaderImport :=
  { As := "_",
    Package := if d.Name = "postgres" then "github.com/lib/pq" else "github.com/mattn/go-sqlite3" }

instance exceptDecEq {ε α : Type} [DecidableEq ε] [DecidableEq α] : DecidableEq (Except ε α)
  | .ok a, .ok b => if h : a = b then isTrue (by rw [h]) else isFalse (by intro h2; cases h2; exact h rfl)
  | .error a, .error b => if h : a = b then isTrue (by rw [h]) else isFalse (by intro h2; cases h2; exact h rfl)
  | .ok _, .error _ => isFalse (by intro h; cases h)
  | .error _, .ok _ => isFalse (by intro h; cases h)

/-! ## A sample environment and sample inputs -/

/-- Texts of a sample template engine. -/
def sampleText : Template → String → Data → String
  | .header, _, _ => "H;"
  | .lru, _, _ => "L;"
  | .footer, _, .footer funcs => String.intercalate "," funcs
  | .misc, _, .decl d => d.ReceiverBase ++ "." ++ d.Signature ++ d.Body ++ ";"
  | .misc, _, _ => "S;"
  | .ins, n, _ => if n = "signature" then "Create" else "()"
  | .get_last, n, _ => if n = "signature" then "getLast" else "()"
  | _, n, _ => if n = "signature" then "Get" else "()"

/-- A sample environment: every template render succeeds, the formatter fails. -/
def sampleEnv : RenderEnv where
  Render := fun t n x => .ok (sampleText t n x)
  RenderSchema := fun d _ => "schema " ++ d.Name
  ModelStructsFromIR := fun ms => ms.map (fun m => { ptr := m.ptr })
  IsUpper := fun c => c.isUpper
  formatSource := fun _ => .error "unformatted"

/-- A dialect with `Returning`. -/
def samplePostgres : Dialect := { impl := 0, Name := "postgres", Features := { Returning := true } }

/-- A dialect without `Returning`. -/
def sampleSqlite : Dialect := { impl := 1, Name := "sqlite3", Features := { Returning := false } }

/-- A dialect that `renderHeader` does not know. -/
def sampleMysql : Dialect := { impl := 2, Name := "mysql", Features := { Returning := false } }

/-- Another dialect that `renderHeader` does not know. -/
def sampleOracle : Dialect := { impl := 3, Name := "oracle", Features := { Returning := false } }

/-- A root with one model, one insert and two updates of that model. -/
def sampleRoot : Root :=
  { Models := [{ ptr := 10 }], Selects := [],
    Inserts := [{ ptr := 20, Model := { ptr := 10 } }],
    Updates := [{ ptr := 30, Model := { ptr := 10 } }, { ptr := 31, Model := { ptr := 10 } }],
    Deletes := [], Counts := [] }

/-- A root without models and queries. -/
def emptyRoot : Root :=
  { Models := [], Selects := [], Inserts := [], Updates := [], Deletes := [], Counts := [] }

/-- A sample environment of the setters: positions print as `line:column`. -/
def sampleSyntaxEnv : SyntaxEnv where
  posString := fun p => toString p.Line ++ ":" ++ toString p.Column
  boolFromValue := fun n v => some { Pos := n.getPos, Value := v }

/-! ## lineAround: the two scans -/

theorem lineStart_spec (data : List Nat) :
    ∀ n, n ≤ data.length →
      ∃ s, lineStart data n = some s ∧ s ≤ n ∧
        (s = 0 ∨ data[s - 1]? = some NL) ∧
        ∀ j, s ≤ j → j < n → data[j]? ≠ some NL := by
  intro n
  induction n with
  | zero =>
    intro _
    exact ⟨0, rfl, le_refl _, Or.inl rfl, fun j _ hj => absurd hj (Nat.not_lt_zero _)⟩
  | succ i ih =>
    intro hi
    have hlt : i < data.length := hi
    have hget : data[i]? = some data[i] := List.getElem?_eq_getElem hlt
    by_cases hb : data[i] = NL
    · refine ⟨i + 1, ?_, le_refl _, Or.inr ?_, fun j h1 h2 => by omega⟩
      · simp [lineStart, hget, hb]
      · simp [hget, hb]
    · obtain ⟨s, hs, hle, hbd, hno⟩ := ih (Nat.le_of_lt hlt)
      refine ⟨s, ?_, Nat.le_succ_of_le hle, hbd, ?_⟩
      · simp [lineStart, hget, hb, hs]
      · intro j h1 h2
        by_cases hj : j = i
        · subst hj
          simp [hget, hb]
        · exact hno j h1 (by omega)

theorem lineEnd_spec (data : List Nat) :
    ∀ fuel i, fuel + i = data.length →
      ∃ e, lineEnd data fuel i = some e ∧ i ≤ e ∧ e ≤ data.length ∧
        (e = data.length ∨ data[e]? = some NL) ∧
        ∀ j, i ≤ j → j < e → data[j]? ≠ some NL := by
  intro fuel
  induction fuel with
  | zero =>
    intro i hi
    have : i = data.length := by omega
    subst this
    exact ⟨data.length, by simp [lineEnd], le_refl _, le_refl _, Or.inl rfl,
      fun j h1 h2 => by omega⟩
  | succ fuel ih =>
    intro i hi
    have hlt : i < data.length := by omega
    have hget : data[i]? = some data[i] := List.getElem?_eq_getElem hlt
    by_cases hb : data[i] = NL
    · refine ⟨i, ?_, le_refl _, Nat.le_of_lt hlt, Or.inr ?_, fun j h1 h2 => by omega⟩
      · simp [lineEnd, hlt, hget, hb]
      · simp [hget, hb]
    · obtain ⟨e, he, hle, hlen, hbd, hno⟩ := ih (i + 1) (by omega)
      refine ⟨e, ?_, by omega, hlen, hbd, ?_⟩
      · simp [lineEnd, hlt, hget, hb, he]
      · intro j h1 h2
        by_cases hj : j = i
        · subst hj
          simp [hget, hb]
        · exact hno j (by omega) h2

/-- What `lineAround` returns on an offset inside the data. -/
theorem lineAround_spec (data : List Nat) (offset : Nat) (h : offset ≤ data.length) :
    ∃ s e, lineAround data (offset : Int) = some (s, e) ∧
      s ≤ offset ∧ offset ≤ e ∧ e ≤ data.length ∧
      (s = 0 ∨ data[s - 1]? = some NL) ∧
      (e = data.length ∨ data[e]? = some NL) ∧
      ∀ j, s ≤ j → j < e → data[j]? ≠ some NL := by
  obtain ⟨s, hs, hsle, hsb, hsno⟩ := lineStart_spec data offset h
  obtain ⟨e, he, hle, helen, heb, heno⟩ :=
    lineEnd_spec data (data.length - offset) offset (by omega)
  refine ⟨s, e, ?_, hsle, hle, helen, hsb, heb, ?_⟩
  · simp [lineAround, hs, he]
  · intro j h1 h2
    by_cases hj : j < offset
    · exact hsno j h1 hj
    · exact heno j (by omega) h2

theorem mem_slice_iff (data : List Nat) (s e : Nat) (b : Nat) :
    b ∈ (data.drop s).take (e - s) ↔ ∃ j, s ≤ j ∧ j < e ∧ data[j]? = some b := by
  rw [List.mem_iff_getElem?]
  constructor
  · rintro ⟨n, hn⟩
    rw [List.getElem?_take] at hn
    split at hn
    · rw [List.getElem?_drop] at hn
      exact ⟨s + n, by omega, by omega, hn⟩
    · cases hn
  · rintro ⟨j, h1, h2, h3⟩
    refine ⟨j - s, ?_⟩
    rw [List.getElem?_take, if_pos (by omega), List.getElem?_drop]
    rw [show s + (j - s) = j by omega]
    exact h3

/-- C10: for every byte sequence and every offset with `0 <= offset <= len(data)`,
`lineAround` returns without reading outside the data, and the returned
`(start, end)` satisfies `0 <= start <= offset <= end <= len(data)`,
`data[start:end]` holds no newline, `start` is 0 or `data[start-1]` is a newline,
and `end` is `len(data)` or `data[end]` is a newline; when `data[offset]` is a
newline, `end = offset`, so the result is the line this newline terminates. -/
theorem lineAround_bounds (data : List Nat) (offset : Int)
    (h0 : 0 ≤ offset) (h1 : offset ≤ data.length) :
    ∃ s e, lineAround data offset = some (s, e) ∧
      (s : Int) ≤ offset ∧ offset ≤ (e : Int) ∧ e ≤ data.length ∧
      slice data s e = some ((data.drop s).take (e - s)) ∧
      NL ∉ (data.drop s).take (e - s) ∧
      (s = 0 ∨ data[s - 1]? = some NL) ∧
      (e = data.length ∨ data[e]? = some NL) ∧
      (data[offset.toNat]? = some NL → (e : Int) = offset) := by
  obtain ⟨n, rfl⟩ := Int.eq_ofNat_of_zero_le h0
  have hn : n ≤ data.length := by exact_mod_cast h1
  obtain ⟨s, e, hsome, hs, he, hlen, hsb, heb, hno⟩ := lineAround_spec data n hn
  refine ⟨s, e, hsome, by exact_mod_cast hs, by exact_mod_cast he, hlen, ?_, ?_, hsb, heb, ?_⟩
  · simp [slice, hlen, le_trans hs he]
  · intro hmem
    obtain ⟨j, hj1, hj2, hj3⟩ := (mem_slice_iff data s e NL).1 hmem
    exact hno j hj1 hj2 hj3
  · intro hnl
    simp only [Int.toNat_ofNat] at hnl
    by_contra hne
    have hlt : n < e := by
      have : (e : Int) ≠ n := hne
      have h2 : e ≠ n := by exact_mod_cast this
      omega
    exact hno n hs hlt hnl

/-- C10 at a concrete input: the offset of the newline that ends the second line. -/
theorem lineAround_bounds_witness :
    ∃ s e, lineAround [97, 10, 98, 99, 10, 100] 4 = some (s, e) ∧
      (s : Int) ≤ 4 ∧ (4 : Int) ≤ (e : Int) ∧ e ≤ [97, 10, 98, 99, 10, 100].length ∧
      slice [97, 10, 98, 99, 10, 100] s e = some (([97, 10, 98, 99, 10, 100].drop s).take (e - s)) ∧
      NL ∉ ([97, 10, 98, 99, 10, 100].drop s).take (e - s) ∧
      (s = 0 ∨ [97, 10, 98, 99, 10, 100][s - 1]? = some NL) ∧
      (e = [97, 10, 98, 99, 10, 100].length ∨ [97, 10, 98, 99, 10, 100][e]? = some NL) ∧
      ([97, 10, 98, 99, 10, 100][(4 : Int).toNat]? = some NL → (e : Int) = 4) :=
  lineAround_bounds [97, 10, 98, 99, 10, 100] 4 (by decide) (by decide)

/-! ## Bytes of the rendered rows -/

theorem decimalAux_digits :
    ∀ fuel n acc, (∀ b ∈ acc, 48 ≤ b ∧ b ≤ 57) →
      ∀ b ∈ decimalAux fuel n acc, 48 ≤ b ∧ b ≤ 57 := by
  intro fuel
  induction fuel with
  | zero => intro n acc h b hb; exact h b hb
  | succ fuel ih =>
    intro n acc h b hb
    unfold decimalAux at hb
    split at hb
    · rcases List.mem_cons.1 hb with rfl | hb
      · omega
      · exact h b hb
    · refine ih (n / 10) _ ?_ b hb
      intro c hc
      rcases List.mem_cons.1 hc with rfl | hc
      · omega
      · exact h c hc

theorem sprintfLine_bytes (n : Int) : ∀ b ∈ sprintfLine n, b ≠ NL ∧ b ≠ TAB := by
  intro b hb
  have hdig : ∀ c ∈ decimal n.natAbs, 48 ≤ c ∧ c ≤ 57 :=
    decimalAux_digits _ _ [] (by simp)
  simp only [sprintfLine, sprintf4d, List.mem_append, List.mem_replicate, List.mem_cons,
    List.mem_singleton, List.not_mem_nil, or_false] at hb
  simp only [NL, TAB, SP] at *
  rcases hb with (⟨_, rfl⟩ | hb | hb) | rfl | rfl
  · omega
  · split at hb <;> omega
  · have := hdig b hb
    omega
  · omega
  · omega

theorem replaceTabs_no_tab : ∀ l : List Nat, TAB ∉ replaceTabs l := by
  intro l
  induction l with
  | nil => simp [replaceTabs]
  | cons b rest ih =>
    unfold replaceTabs
    split
    · have ih2 : (9 : Nat) ∉ replaceTabs rest := ih
      simp [ih2, TAB, SP]
    · rename_i hb
      simp only [List.mem_cons, not_or]
      exact ⟨fun h => hb h.symm, ih⟩

theorem replaceTabs_no_nl : ∀ l : List Nat, NL ∉ l → NL ∉ replaceTabs l := by
  intro l
  induction l with
  | nil => simp [replaceTabs]
  | cons b rest ih =>
    intro h
    simp only [List.mem_cons, not_or] at h
    unfold replaceTabs
    split
    · have ih2 : (10 : Nat) ∉ replaceTabs rest := ih h.2
      simp [ih2, NL, SP]
    · simp only [List.mem_cons, not_or]
      exact ⟨h.1, ih h.2⟩

/-! ## Lines of a text -/

theorem splitLines_ne_nil : ∀ l : List Nat, splitLines l ≠ [] := by
  intro l
  cases l with
  | nil => simp [splitLines]
  | cons b rest =>
    unfold splitLines
    split
    · simp
    · split <;> simp

theorem splitLines_of_no_nl : ∀ l : List Nat, NL ∉ l → splitLines l = [l] := by
  intro l
  induction l with
  | nil => intro _; rfl
  | cons b rest ih =>
    intro h
    simp only [List.mem_cons, not_or] at h
    have hb : ¬ b = NL := fun hb => h.1 hb.symm
    simp [splitLines, hb, ih h.2]

theorem splitLines_append_nl : ∀ a b : List Nat,
    splitLines (a ++ NL :: b) = splitLines a ++ splitLines b := by
  intro a b
  induction a with
  | nil => simp [splitLines]
  | cons c rest ih =>
    by_cases hc : c = NL
    · simp [splitLines, hc, ih]
    · have hstep : splitLines (c :: (rest ++ NL :: b)) =
          (match splitLines (rest ++ NL :: b) with
            | [] => [[c]]
            | l :: ls => (c :: l) :: ls) := by
        simp [splitLines, hc]
      have hstep2 : splitLines (c :: rest) =
          (match splitLines rest with
            | [] => [[c]]
            | l :: ls => (c :: l) :: ls) := by
        simp [splitLines, hc]
      rw [List.cons_append, hstep, hstep2, ih]
      cases hsplit : splitLines rest with
      | nil => exact absurd hsplit (splitLines_ne_nil rest)
      | cons l ls => simp

theorem splitLines_length : ∀ l : List Nat, (splitLines l).length = l.count NL + 1 := by
  intro l
  induction l with
  | nil => rfl
  | cons c rest ih =>
    by_cases hc : c = NL
    · simp [splitLines, hc, ih]
    · have hc2 : ¬ (c == NL) = true := by simpa using hc
      rw [List.count_cons, if_neg hc2]
      simp only [splitLines, hc, if_false]
      cases hsplit : splitLines rest with
      | nil => exact absurd hsplit (splitLines_ne_nil rest)
      | cons l ls =>
        rw [hsplit] at ih
        simpa using ih

/-- The line in the middle of a decomposition `pre ++ line ++ post` where `pre`
is empty or ends with a newline, `line` has no newline and `post` is empty or
starts with a newline. -/
theorem splitLines_mid (pre line post : List Nat) (hline : NL ∉ line)
    (hpre : pre = [] ∨ ∃ p, pre = p ++ [NL])
    (hpost : post = [] ∨ ∃ q, post = NL :: q) :
    (splitLines (pre ++ line ++ post))[pre.count NL]? = some line := by
  have hhead : ∃ ls, splitLines (line ++ post) = line :: ls := by
    rcases hpost with rfl | ⟨q, rfl⟩
    · exact ⟨[], by simp [splitLines_of_no_nl line hline]⟩
    · exact ⟨splitLines q, by rw [splitLines_append_nl, splitLines_of_no_nl line hline]; rfl⟩
  obtain ⟨ls, hls⟩ := hhead
  rcases hpre with rfl | ⟨p, rfl⟩
  · simp [hls]
  · have : p ++ [NL] ++ line ++ post = p ++ NL :: (line ++ post) := by simp
    rw [this, splitLines_append_nl, hls]
    have hlen : (p ++ [NL]).count NL = (splitLines p).length := by
      rw [splitLines_length]; simp
    rw [hlen, List.getElem?_append_right (le_refl _)]
    simp

theorem take_pred_append (data : List Nat) (p : Nat) (hp : 0 < p)
    (h : data[p - 1]? = some NL) : data.take p = data.take (p - 1) ++ [NL] := by
  obtain ⟨k, rfl⟩ : ∃ k, p = k + 1 := ⟨p - 1, by omega⟩
  simp only [Nat.add_sub_cancel] at h ⊢
  rw [List.take_succ, h]
  rfl

theorem drop_eq_nl_cons (data : List Nat) (q : Nat)
    (h : data[q]? = some NL) : data.drop q = NL :: data.drop (q + 1) := by
  obtain ⟨hq, hget⟩ := List.getElem?_eq_some_iff.1 h
  rw [List.drop_eq_getElem_cons hq, hget]

theorem lineIndex_eq (data : List Nat) (p o : Nat) (hpo : p ≤ o)
    (hno : ∀ j, p ≤ j → j < o → data[j]? ≠ some NL) :
    lineIndex data o = (data.take p).count NL := by
  have hsplit : data.take o = data.take p ++ (data.drop p).take (o - p) := by
    have h1 : o = p + (o - p) := by omega
    conv_lhs => rw [h1, List.take_add]
  have hzero : ((data.drop p).take (o - p)).count NL = 0 := by
    rw [List.count_eq_zero]
    intro hmem
    obtain ⟨j, hj1, hj2, hj3⟩ := (mem_slice_iff data p o NL).1 hmem
    exact hno j hj1 hj2 hj3
  unfold lineIndex
  rw [hsplit, List.count_append, hzero, Nat.add_zero]

/-- The newline-free stretch `data[p:q]` delimited by newlines (or the ends
of the data) is the line of every offset `o` with `p <= o <= q`. -/
theorem line_at (data : List Nat) (p q o : Nat) (hpo : p ≤ o) (hoq : o ≤ q)
    (_hq : q ≤ data.length)
    (hno : ∀ j, p ≤ j → j < q → data[j]? ≠ some NL)
    (hp : p = 0 ∨ data[p - 1]? = some NL)
    (hq2 : q = data.length ∨ data[q]? = some NL) :
    (splitLines data)[lineIndex data o]? = some ((data.drop p).take (q - p)) := by
  have hdecomp : data = data.take p ++ (data.drop p).take (q - p) ++ data.drop q := by
    have h1 : (data.drop p).drop (q - p) = data.drop q := by
      rw [List.drop_drop]
      congr 1
      omega
    rw [List.append_assoc, ← h1, List.take_append_drop, List.take_append_drop]
  have hline : NL ∉ (data.drop p).take (q - p) := by
    intro hmem
    obtain ⟨j, hj1, hj2, hj3⟩ := (mem_slice_iff data p q NL).1 hmem
    exact hno j hj1 hj2 hj3
  have hpre : data.take p = [] ∨ ∃ pp, data.take p = pp ++ [NL] := by
    rcases Nat.eq_zero_or_pos p with h0 | hpos
    · left; simp [h0]
    · right
      rcases hp with h0 | hnl
      · omega
      · exact ⟨_, take_pred_append data p hpos hnl⟩
  have hpost : data.drop q = [] ∨ ∃ qq, data.drop q = NL :: qq := by
    rcases hq2 with hlen | hnl
    · left; simp [hlen]
    · right; exact ⟨_, drop_eq_nl_cons data q hnl⟩
  have hidx := lineIndex_eq data p o hpo (fun j h1 h2 => hno j h1 (by omega))
  have := splitLines_mid (data.take p) ((data.drop p).take (q - p)) (data.drop q)
    hline hpre hpost
  rw [← hdecomp] at this
  rw [hidx]
  exact this

/-- The result of `lineAround` in terms of the lines of the data. -/
theorem lineAround_line (data : List Nat) (offset : Nat) (h : offset ≤ data.length) :
    ∃ s e, lineAround data (offset : Int) = some (s, e) ∧
      s ≤ offset ∧ offset ≤ e ∧ e ≤ data.length ∧
      NL ∉ (data.drop s).take (e - s) ∧
      (splitLines data)[lineIndex data offset]? = some ((data.drop s).take (e - s)) ∧
      (s = 0 → lineIndex data offset = 0) ∧
      (0 < s → data[s - 1]? = some NL ∧
        lineIndex data offset = lineIndex data (s - 1) + 1) := by
  obtain ⟨s, e, hsome, hs, he, hlen, hsb, heb, hno⟩ := lineAround_spec data offset h
  have hidx := lineIndex_eq data s offset hs (fun j h1 h2 => hno j h1 (by omega))
  refine ⟨s, e, hsome, hs, he, hlen, ?_, ?_, ?_, ?_⟩
  · intro hmem
    obtain ⟨j, hj1, hj2, hj3⟩ := (mem_slice_iff data s e NL).1 hmem
    exact hno j hj1 hj2 hj3
  · exact line_at data s e offset hs he hlen hno hsb heb
  · intro h0
    rw [hidx, h0]
    simp
  · intro hpos
    have hnl : data[s - 1]? = some NL := by
      rcases hsb with h0 | hnl
      · omega
      · exact hnl
    refine ⟨hnl, ?_⟩
    rw [hidx, take_pred_append data s hpos hnl]
    unfold lineIndex
    simp

/-! ## generateContext: shape of the result -/

theorem beforeRow_zero (source : List Nat) (pos : Position) :
    beforeRow source pos 0 = some [] := by
  simp [beforeRow]

theorem beforeRow_pos (source : List Nat) (pos : Position) (s : Nat) (hs : 0 < s)
    (hlen : s ≤ source.length) :
    ∃ prev, beforeRow source pos s =
        some (sprintfLine (wrapInt (pos.Line - 1)) ++ replaceTabs prev ++ [NL]) ∧
      NL ∉ prev ∧ (splitLines source)[lineIndex source (s - 1)]? = some prev := by
  obtain ⟨s2, e2, hsome, _, hle2, hlen2, hno2, hline2, _, _⟩ :=
    lineAround_line source (s - 1) (by omega)
  have hcast : ((s : Int) - 1) = ((s - 1 : Nat) : Int) := by omega
  have hslice : slice source s2 e2 = some ((source.drop s2).take (e2 - s2)) := by
    simp [slice, hlen2]; omega
  refine ⟨(source.drop s2).take (e2 - s2), ?_, hno2, hline2⟩
  unfold beforeRow
  rw [if_pos hs, hcast, hsome]
  simp only [hslice]

theorem wrapInt_of_fits (x : Int) (h1 : -9223372036854775808 ≤ x)
    (h2 : x < 9223372036854775808) : wrapInt x = x := by
  unfold wrapInt
  omega

theorem lineAt_eq (source : List Nat) (offset : Nat) (line : List Nat)
    (h : (splitLines source)[lineIndex source offset]? = some line) :
    lineAt source offset = line := by
  simp [lineAt, h]

theorem generateContext_shape (source : List Nat) (pos : Position) (length : Int)
    (h0 : 0 ≤ pos.Offset) (h1 : pos.Offset ≤ source.length) (hc : 1 ≤ pos.Column)
    (hfit : 3 * (countTabs (lineAt source pos.Offset.toNat) : Int) + pos.Column + 5 <
      9223372036854775808) :
    ∃ before line,
      generateContext source pos length =
        some (before ++ sprintfLine pos.Line ++ replaceTabs line ++ [NL] ++
          underlineRow (countTabs line) pos.Column length) ∧
      (splitLines source)[lineIndex source pos.Offset.toNat]? = some line ∧
      NL ∉ line ∧
      ((lineIndex source pos.Offset.toNat = 0 ∧ before = []) ∨
        (0 < lineIndex source pos.Offset.toNat ∧
          ∃ prev, (splitLines source)[lineIndex source pos.Offset.toNat - 1]? = some prev ∧
            NL ∉ prev ∧
            before = sprintfLine (wrapInt (pos.Line - 1)) ++ replaceTabs prev ++ [NL])) := by
  obtain ⟨Filename, Offset, Line, Column⟩ := pos
  simp only at h0 h1 hc hfit ⊢
  obtain ⟨n, rfl⟩ := Int.eq_ofNat_of_zero_le h0
  have hn : n ≤ source.length := by exact_mod_cast h1
  have htn : (n : Int).toNat = n := Int.toNat_ofNat n
  rw [htn] at hfit
  obtain ⟨s, e, hsome, hs, he, hlen, hno, hline, hz, hp⟩ := lineAround_line source n hn
  rw [lineAt_eq source n _ hline] at hfit
  have hslice : slice source s e = some ((source.drop s).take (e - s)) := by
    simp [slice, hlen]; omega
  have hgt : ¬ ((n : Int) > (source.length : Int)) := by omega
  have hwrap : wrapInt ((countTabs ((source.drop s).take (e - s)) : Int) * 4 + Column - 1 -
      (countTabs ((source.drop s).take (e - s)) : Int) + 6) =
      (countTabs ((source.drop s).take (e - s)) : Int) * 4 + Column - 1 -
        (countTabs ((source.drop s).take (e - s)) : Int) + 6 :=
    wrapInt_of_fits _ (by omega) (by omega)
  have hrep1 : repeatByte SP ((countTabs ((source.drop s).take (e - s)) : Int) * 4 + Column - 1 -
      (countTabs ((source.drop s).take (e - s)) : Int) + 6) =
      some (List.replicate ((countTabs ((source.drop s).take (e - s)) : Int) * 4 + Column - 1 -
        (countTabs ((source.drop s).take (e - s)) : Int) + 6).toNat SP) := by
    have : ¬ ((countTabs ((source.drop s).take (e - s)) : Int) * 4 + Column - 1 -
        (countTabs ((source.drop s).take (e - s)) : Int) + 6 < 0) := by omega
    simp [repeatByte, this]
  have hrep2 : repeatByte CARET (if length ≤ 0 then 1 else length) =
      some (List.replicate (max length 1).toNat CARET) := by
    by_cases hl : length ≤ 0
    · have hm : max length 1 = 1 := max_eq_right (by omega)
      simp [repeatByte, hl, hm]
    · have hm : max length 1 = length := max_eq_left (by omega)
      have h3 : ¬ length < 0 := by omega
      simp [repeatByte, hl, hm, h3]
  have hgen : ∀ before, beforeRow source ⟨Filename, (n : Int), Line, Column⟩ s = some before →
      generateContext source ⟨Filename, (n : Int), Line, Column⟩ length =
        some (before ++ sprintfLine Line ++ replaceTabs ((source.drop s).take (e - s)) ++ [NL] ++
          underlineRow (countTabs ((source.drop s).take (e - s))) Column length) := by
    intro before hb
    unfold generateContext
    simp only [hgt, if_false, hsome, hslice, hb, hwrap, hrep1, hrep2, underlineRow]
  rw [htn]
  rcases Nat.eq_zero_or_pos s with hs0 | hspos
  · subst hs0
    refine ⟨[], _, hgen [] (beforeRow_zero _ _), hline, hno, Or.inl ⟨hz rfl, rfl⟩⟩
  · obtain ⟨prev, hbefore, hnoprev, hprev⟩ :=
      beforeRow_pos source ⟨Filename, (n : Int), Line, Column⟩ s hspos (by omega)
    obtain ⟨_, hidx⟩ := hp hspos
    refine ⟨_, _, hgen _ hbefore, hline, hno, Or.inr ⟨by omega, prev, ?_, hnoprev, rfl⟩⟩
    rw [hidx, Nat.add_sub_cancel]
    exact hprev

/-! ## The rows in terms of the line number and of the tab expansion -/

theorem digitChar_toNat (d : Nat) (h : d < 10) : (Nat.digitChar d).toNat = d + 48 := by
  interval_cases d <;> rfl

theorem decimalAux_eq : ∀ fuel n (ds : List Char),
    decimalAux fuel n (ds.map Char.toNat) = (Nat.toDigitsCore 10 fuel n ds).map Char.toNat := by
  intro fuel
  induction fuel with
  | zero => intro n ds; rfl
  | succ fuel ih =>
    intro n ds
    have hd : (Nat.digitChar (n % 10)).toNat = n % 10 + 48 :=
      digitChar_toNat _ (Nat.mod_lt _ (by decide))
    by_cases hn : n < 10
    · have h0 : n / 10 = 0 := by omega
      have hm : n % 10 = n := by omega
      have hd2 : (Nat.digitChar n).toNat = n + 48 := digitChar_toNat n hn
      simp only [decimalAux, Nat.toDigitsCore, hn, h0, if_true, List.map_cons, hm, hd2]
    · have h0 : ¬ n / 10 = 0 := by omega
      simp only [decimalAux, Nat.toDigitsCore, hn, h0, if_false]
      rw [← ih]
      simp [hd]

theorem decimal_eq (n : Nat) : decimal n = decimalDigits n :=
  decimalAux_eq (n + 1) n []

theorem sprintfLine_eq (n : Int) : sprintfLine n = lineLabel n := by
  simp [sprintfLine, sprintf4d, lineLabel, decimal_eq, SP, Nat.add_comm]

theorem replaceTabs_eq (line : List Nat) : replaceTabs line = expandTabs line := by
  induction line with
  | nil => rfl
  | cons b rest ih =>
    by_cases hb : b = 9
    · simp [replaceTabs, expandTabs, TAB, SP, hb, ← ih, List.flatMap_cons] at ih ⊢
      exact ih
    · simp [replaceTabs, expandTabs, TAB, SP, hb, List.flatMap_cons] at ih ⊢
      exact ih

theorem underlineRow_eq (tabs : Nat) (column length : Int) (hc : 1 ≤ column) :
    underlineRow tabs column length =
      List.replicate (3 * tabs + column.toNat + 5) 32 ++
        List.replicate (max length 1).toNat 94 := by
  have h : ((tabs : Int) * 4 + column - 1 - tabs + 6).toNat = 3 * tabs + column.toNat + 5 := by
    omega
  simp [underlineRow, h, SP, CARET]

theorem underlineRow_bytes (tabs : Nat) (column length : Int) :
    ∀ b ∈ underlineRow tabs column length, b ≠ NL ∧ b ≠ TAB := by
  intro b hb
  simp only [underlineRow, List.mem_append, List.mem_replicate] at hb
  simp only [NL, TAB, SP, CARET] at *
  rcases hb with ⟨_, rfl⟩ | ⟨_, rfl⟩ <;> omega

theorem row_bytes (n : Int) (line : List Nat) (hline : NL ∉ line) :
    NL ∉ sprintfLine n ++ replaceTabs line ∧ TAB ∉ sprintfLine n ++ replaceTabs line := by
  constructor
  · intro h
    rcases List.mem_append.1 h with h | h
    · exact (sprintfLine_bytes n NL h).1 rfl
    · exact replaceTabs_no_nl line hline h
  · intro h
    rcases List.mem_append.1 h with h | h
    · exact (sprintfLine_bytes n TAB h).2 rfl
    · exact replaceTabs_no_tab line h

theorem splitLines_two (r u : List Nat) (hr : NL ∉ r) (hu : NL ∉ u) :
    splitLines (r ++ [NL] ++ u) = [r, u] := by
  have : r ++ [NL] ++ u = r ++ NL :: u := by simp
  rw [this, splitLines_append_nl, splitLines_of_no_nl r hr, splitLines_of_no_nl u hu]
  rfl

theorem splitLines_three (r1 r2 u : List Nat) (h1 : NL ∉ r1) (h2 : NL ∉ r2) (hu : NL ∉ u) :
    splitLines (r1 ++ [NL] ++ r2 ++ [NL] ++ u) = [r1, r2, u] := by
  have : r1 ++ [NL] ++ r2 ++ [NL] ++ u = r1 ++ NL :: (r2 ++ [NL] ++ u) := by simp
  rw [this, splitLines_append_nl, splitLines_of_no_nl r1 h1, splitLines_two r2 u h2 hu]
  rfl

/-- C4 (counterexample): at column `MaxInt64`, a column `>= 1`, the offset of the
underline wraps to a negative number and `strings.Repeat` panics: no text is
returned. -/
theorem generateContext_column_overflow :
    (1 : Int) ≤ 9223372036854775807 ∧
      generateContext [] ⟨"", 0, 1, 9223372036854775807⟩ 1 = none := by
  decide

/-- C4 (amended): for every source, every position with `0 <= Offset <=
len(source)`, `Column >= 1` and `3 * tabs + Column + 5 <= MaxInt64`, where `tabs`
is the number of tabs of the line that holds `Offset` (the offset of the
underline does not overflow), and every integer `length` (zero and negative
included), `generateContext` returns a text whose last line is made of spaces
followed by exactly `max(length, 1)` carets and nothing else. -/
theorem generateContext_last_line (source : List Nat) (pos : Position) (length : Int)
    (h0 : 0 ≤ pos.Offset) (h1 : pos.Offset ≤ source.length) (hc : 1 ≤ pos.Column)
    (hfit : 3 * (countTabs (lineAt source pos.Offset.toNat) : Int) + pos.Column + 5 <
      9223372036854775808) :
    ∃ out n, generateContext source pos length = some out ∧
      (splitLines out).getLast? =
        some (List.replicate n SP ++ List.replicate (max length 1).toNat CARET) := by
  obtain ⟨before, line, hgen, _, _, _⟩ :=
    generateContext_shape source pos length h0 h1 hc hfit
  refine ⟨_, (((countTabs line : Nat) : Int) * 4 + pos.Column - 1 - (countTabs line : Nat) + 6).toNat,
    hgen, ?_⟩
  have hu : NL ∉ underlineRow (countTabs line) pos.Column length :=
    fun h => (underlineRow_bytes _ _ _ NL h).1 rfl
  have hre : before ++ sprintfLine pos.Line ++ replaceTabs line ++ [NL] ++
      underlineRow (countTabs line) pos.Column length =
      (before ++ sprintfLine pos.Line ++ replaceTabs line) ++
        NL :: underlineRow (countTabs line) pos.Column length := by simp
  rw [hre, splitLines_append_nl, splitLines_of_no_nl _ hu, List.getLast?_append]
  rfl

/-- C4 (amended) at a concrete input: a negative length on the second line of a
source. -/
theorem generateContext_last_line_witness :
    ∃ out n, generateContext [97, 10, 9, 98, 99] ⟨"", 3, 2, 2⟩ (-2) = some out ∧
      (splitLines out).getLast? =
        some (List.replicate n SP ++ List.replicate (max (-2 : Int) 1).toNat CARET) :=
  generateContext_last_line [97, 10, 9, 98, 99] ⟨"", 3, 2, 2⟩ (-2)
    (by decide) (by decide) (by decide) (by decide)

theorem generateContext_rows_model (source : List Nat) (pos : Position) (length : Int)
    (h0 : 0 ≤ pos.Offset) (h1 : pos.Offset ≤ source.length) (hc : 1 ≤ pos.Column)
    (hfit : 3 * (countTabs (lineAt source pos.Offset.toNat) : Int) + pos.Column + 5 <
      9223372036854775808) :
    ∃ out line,
      generateContext source pos length = some out ∧
      (splitLines source)[lineIndex source pos.Offset.toNat]? = some line ∧
      TAB ∉ out ∧
      (lineIndex source pos.Offset.toNat = 0 →
        splitLines out =
          [sprintfLine pos.Line ++ replaceTabs line,
           underlineRow (countTabs line) pos.Column length]) ∧
      (0 < lineIndex source pos.Offset.toNat →
        ∃ prev, (splitLines source)[lineIndex source pos.Offset.toNat - 1]? = some prev ∧
          splitLines out =
            [sprintfLine (wrapInt (pos.Line - 1)) ++ replaceTabs prev,
             sprintfLine pos.Line ++ replaceTabs line,
             underlineRow (countTabs line) pos.Column length]) := by
  obtain ⟨before, line, hgen, hline, hno, hcases⟩ :=
    generateContext_shape source pos length h0 h1 hc hfit
  have hu : NL ∉ underlineRow (countTabs line) pos.Column length :=
    fun h => (underlineRow_bytes _ _ _ NL h).1 rfl
  have hut : TAB ∉ underlineRow (countTabs line) pos.Column length :=
    fun h => (underlineRow_bytes _ _ _ TAB h).2 rfl
  have hrow := row_bytes pos.Line line hno
  refine ⟨_, line, hgen, hline, ?_, ?_, ?_⟩
  · have hnt : NL ≠ TAB := by decide
    rcases hcases with ⟨_, rfl⟩ | ⟨_, prev, _, hnoprev, rfl⟩
    · intro h
      simp only [List.nil_append, List.append_assoc, List.mem_append, List.mem_singleton] at h
      rcases h with h | h | h | h
      · exact (sprintfLine_bytes _ TAB h).2 rfl
      · exact replaceTabs_no_tab line h
      · exact hnt h.symm
      · exact hut h
    · intro h
      simp only [List.append_assoc, List.mem_append, List.mem_singleton] at h
      rcases h with h | h | h | h | h | h | h
      · exact (sprintfLine_bytes _ TAB h).2 rfl
      · exact replaceTabs_no_tab prev h
      · exact hnt h.symm
      · exact (sprintfLine_bytes _ TAB h).2 rfl
      · exact replaceTabs_no_tab line h
      · exact hnt h.symm
      · exact hut h
  · intro hk
    rcases hcases with ⟨_, rfl⟩ | ⟨hpos, _⟩
    · rw [List.nil_append]
      exact splitLines_two _ _ hrow.1 hu
    · omega
  · intro hk
    rcases hcases with ⟨hz, _⟩ | ⟨_, prev, hprev, hnoprev, rfl⟩
    · omega
    · refine ⟨prev, hprev, ?_⟩
      have hrowp := row_bytes (wrapInt (pos.Line - 1)) prev hnoprev
      have hre : sprintfLine (wrapInt (pos.Line - 1)) ++ replaceTabs prev ++ [NL] ++
          sprintfLine pos.Line ++
          replaceTabs line ++ [NL] ++ underlineRow (countTabs line) pos.Column length =
          (sprintfLine (wrapInt (pos.Line - 1)) ++ replaceTabs prev) ++ [NL] ++
            (sprintfLine pos.Line ++ replaceTabs line) ++ [NL] ++
            underlineRow (countTabs line) pos.Column length := by
        simp
      rw [hre]
      exact splitLines_three _ _ _ hrowp.1 hrow.1 hu

/-- C6 (counterexample): at column `MaxInt64`, a column `>= 1`, the offset of the
underline wraps to a negative number and `strings.Repeat` panics, so no text is
returned; and at line `MinInt64` the subtraction `Line - 1` wraps, so the row of
the preceding line holds the number 9223372036854775807. -/
theorem generateContext_rows_overflow :
    generateContext [97, 10, 98] ⟨"", 2, 2, 9223372036854775807⟩ 1 = none ∧
    generateContext [97, 10, 98] ⟨"", 2, -9223372036854775808, 1⟩ 1 =
      some ([32, 57, 50, 50, 51, 51, 55, 50, 48, 51, 54, 56, 53, 52, 55, 55, 53, 56, 48, 55,
          58, 32, 97, 10] ++
        [45, 57, 50, 50, 51, 51, 55, 50, 48, 51, 54, 56, 53, 52, 55, 55, 53, 56, 48, 56,
          58, 32, 98, 10] ++
        [32, 32, 32, 32, 32, 32, 94]) := by
  decide

/-- C6 (amended): for every source and every position with `0 <= Offset <=
len(source)`, `Column >= 1` and `3 * tabs + Column + 5 <= MaxInt64`, where `tabs`
is the number of tabs of the line that holds `Offset`, and with `Line` an int
above `MinInt64`, `generateContext` returns a text whose rows are, in order: when
the line holding `Offset` is not the first line of the source, the row of the
line number `Line-1` and the complete preceding source line; the row of the line
number `Line` and the complete source line holding `Offset`; the underline row.
A row of a line is the decimal line number, right-aligned in width 4 after its
sign slot, a colon, a space, and the line with every tab replaced by four
spaces; the text holds no tab, and for the first line of the source it has
exactly two rows. -/
theorem generateContext_rows (source : List Nat) (pos : Position) (length : Int)
    (h0 : 0 ≤ pos.Offset) (h1 : pos.Offset ≤ source.length) (hc : 1 ≤ pos.Column)
    (hfit : 3 * (countTabs (lineAt source pos.Offset.toNat) : Int) + pos.Column + 5 <
      9223372036854775808)
    (hl1 : -9223372036854775808 < pos.Line) (hl2 : pos.Line < 9223372036854775808) :
    ∃ out line,
      generateContext source pos length = some out ∧
      (splitLines source)[lineIndex source pos.Offset.toNat]? = some line ∧
      9 ∉ out ∧
      (lineIndex source pos.Offset.toNat = 0 →
        splitLines out =
          [lineLabel pos.Line ++ expandTabs line,
           List.replicate (3 * line.count 9 + pos.Column.toNat + 5) 32 ++
             List.replicate (max length 1).toNat 94]) ∧
      (0 < lineIndex source pos.Offset.toNat →
        ∃ prev, (splitLines source)[lineIndex source pos.Offset.toNat - 1]? = some prev ∧
          splitLines out =
            [lineLabel (pos.Line - 1) ++ expandTabs prev,
             lineLabel pos.Line ++ expandTabs line,
             List.replicate (3 * line.count 9 + pos.Column.toNat + 5) 32 ++
               List.replicate (max length 1).toNat 94]) := by
  obtain ⟨out, line, hgen, hline, htab, hfirst, hnext⟩ :=
    generateContext_rows_model source pos length h0 h1 hc hfit
  have hw : wrapInt (pos.Line - 1) = pos.Line - 1 := wrapInt_of_fits _ (by omega) (by omega)
  have hu : underlineRow (countTabs line) pos.Column length =
      List.replicate (3 * line.count 9 + pos.Column.toNat + 5) 32 ++
        List.replicate (max length 1).toNat 94 :=
    underlineRow_eq (countTabs line) pos.Column length hc
  refine ⟨out, line, hgen, hline, htab, ?_, ?_⟩
  · intro hk
    rw [hfirst hk, sprintfLine_eq, replaceTabs_eq, hu]
  · intro hk
    obtain ⟨prev, hprev, hrows⟩ := hnext hk
    refine ⟨prev, hprev, ?_⟩
    rw [hrows, hw, sprintfLine_eq, sprintfLine_eq, replaceTabs_eq, replaceTabs_eq, hu]

/-- C6 (amended) at a concrete input: an offset on the second line, which holds a
tab; the text is `"   1: a"`, `"   2:     bc"` and ten spaces before the caret. -/
theorem generateContext_rows_witness :
    generateContext [97, 10, 9, 98, 99] ⟨"", 3, 2, 2⟩ 1 =
      some ([32, 32, 32, 49, 58, 32, 97, 10] ++
        [32, 32, 32, 50, 58, 32, 32, 32, 32, 32, 98, 99, 10] ++
        [32, 32, 32, 32, 32, 32, 32, 32, 32, 32, 94]) ∧
    ∃ out line,
      generateContext [97, 10, 9, 98, 99] ⟨"", 3, 2, 2⟩ 1 = some out ∧
      (splitLines [97, 10, 9, 98, 99])[lineIndex [97, 10, 9, 98, 99] (3 : Int).toNat]? =
        some line ∧
      9 ∉ out ∧
      (lineIndex [97, 10, 9, 98, 99] (3 : Int).toNat = 0 →
        splitLines out =
          [lineLabel 2 ++ expandTabs line,
           List.replicate (3 * line.count 9 + (2 : Int).toNat + 5) 32 ++
             List.replicate (max (1 : Int) 1).toNat 94]) ∧
      (0 < lineIndex [97, 10, 9, 98, 99] (3 : Int).toNat →
        ∃ prev, (splitLines [97, 10, 9, 98, 99])[lineIndex [97, 10, 9, 98, 99]
            (3 : Int).toNat - 1]? = some prev ∧
          splitLines out =
            [lineLabel (2 - 1) ++ expandTabs prev,
             lineLabel 2 ++ expandTabs line,
             List.replicate (3 * line.count 9 + (2 : Int).toNat + 5) 32 ++
               List.replicate (max (1 : Int) 1).toNat 94]) :=
  ⟨by decide,
   generateContext_rows [97, 10, 9, 98, 99] ⟨"", 3, 2, 2⟩ 1 (by decide) (by decide) (by decide)
     (by decide) (by decide) (by decide)⟩

/-- C5 (the code at a failing input): for the source `"a\tb"` and the position of
its first byte (line 1, column 1) the offending-line row is `"   1: a    b"`,
where 6 bytes precede the offending `a`, and the underline row has 9 spaces
before the caret: the tab that follows the column is counted too. The prefix of
a line number from 1000 on is 7 bytes long, not the 6 the code adds. -/
theorem generateContext_misaligned :
    generateContext [97, 9, 98] ⟨"", 0, 1, 1⟩ 1 =
        some ([32, 32, 32, 49, 58, 32, 97, 32, 32, 32, 32, 98, 10] ++
          ([32, 32, 32, 32, 32, 32, 32, 32, 32] ++ [94])) ∧
      ((generateContext [97, 9, 98] ⟨"", 0, 1, 1⟩ 1).map caretColumn = some 9) ∧
      spanColumn 1 [97, 9, 98] 1 = 6 ∧
      (sprintfLine 1000).length = 7 := by
  decide

/-! ## flagField, tokenFlagField -/

theorem applyAll_set {N : Type}
    (setter : Option AstBool → N → Option SyntaxError × Option AstBool)
    (v : AstBool) (err : N → SyntaxError)
    (h : ∀ n, setter (some v) n = (some (err n), some v)) :
    ∀ nodes, applyAll setter (some v) nodes = (nodes.map (fun n => some (err n)), some v) := by
  intro nodes
  induction nodes with
  | nil => rfl
  | cons n rest ih => simp [applyAll, h, ih]

/-- C3: for every sequence of one or more nodes applied in order to the setter of
`flagField` (and likewise `tokenFlagField`) on an unset value, when
`boolFromValue(node, true)` is non-nil with the position of the node: the first
application succeeds and sets the value, and every later application fails with
the error `<field> already defined on <kind>. previous definition at <position
of the first node>`, positioned at the node it was applied to; the stored value
stays the one set by the first node. -/
theorem flagField_duplicates (env : SyntaxEnv) (kind field : String)
    (hbool : ∀ n, ∃ b, env.boolFromValue n true = some b ∧ b.Pos = n.getPos) :
    (∀ (n1 : TupleNode) (rest : List TupleNode),
      ∃ b, env.boolFromValue (.tuple n1) true = some b ∧ b.Pos = n1.pos ∧
        applyAll (flagField env kind field) none (n1 :: rest) =
          (none :: rest.map (fun n => some
            { message := env.posString n.pos ++ ": " ++
                (field ++ " already defined on " ++ kind ++ ". previous definition at " ++
                  env.posString n1.pos),
              position := n.pos }),
           some b)) ∧
    (∀ (n1 : TokenNode) (rest : List TokenNode),
      ∃ b, env.boolFromValue (.token n1) true = some b ∧ b.Pos = n1.pos ∧
        applyAll (tokenFlagField env kind field) none (n1 :: rest) =
          (none :: rest.map (fun n => some
            { message := env.posString n.pos ++ ": " ++
                (field ++ " already defined on " ++ kind ++ ". previous definition at " ++
                  env.posString n1.pos),
              position := n.pos }),
           some b)) := by
  constructor
  · intro n1 rest
    obtain ⟨b, hb, hpos⟩ := hbool (.tuple n1)
    refine ⟨b, hb, hpos, ?_⟩
    have hstep := applyAll_set (flagField env kind field) b
      (fun n => previouslyDefined env (.tuple n) kind field b.Pos) (fun n => rfl) rest
    have hpos2 : b.Pos = n1.pos := hpos
    simp only [applyAll, flagField, hb, hstep, previouslyDefined, errorAt, Node.getPos, hpos2]
  · intro n1 rest
    obtain ⟨b, hb, hpos⟩ := hbool (.token n1)
    refine ⟨b, hb, hpos, ?_⟩
    have hstep := applyAll_set (tokenFlagField env kind field) b
      (fun n => previouslyDefined env (.token n) kind field b.Pos) (fun n => rfl) rest
    have hpos2 : b.Pos = n1.pos := hpos
    simp only [applyAll, tokenFlagField, hb, hstep, previouslyDefined, errorAt, Node.getPos, hpos2]

/-! ## Renderer: loops as sequences of function renderings -/

theorem forEach_cons {α : Type} (body : α → String → Renderer → Step) (x : α) (xs : List α)
    (w : String) (r : Renderer) :
    forEach body (x :: xs) w r = (body x w r).andThen (forEach body xs) := by
  rcases h : body x w r with ⟨_ | _, _⟩ <;> simp [forEach, Step.andThen, h]

theorem Step.andThen_assoc (s : Step) (k1 k2 : String → Renderer → Step) :
    (s.andThen k1).andThen k2 = s.andThen (fun w r => (k1 w r).andThen k2) := by
  rcases s with ⟨_ | _, _⟩ <;> rfl

theorem forEach_append {α : Type} (body : α → String → Renderer → Step) (xs ys : List α)
    (w : String) (r : Renderer) :
    forEach body (xs ++ ys) w r = (forEach body xs w r).andThen (forEach body ys) := by
  induction xs generalizing w r with
  | nil => rfl
  | cons x xs ih =>
    rw [List.cons_append, forEach_cons, forEach_cons, Step.andThen_assoc]
    congr 1
    funext w1 r1
    exact ih w1 r1

theorem forEach_map {α β : Type} (f : α → β) (body : β → String → Renderer → Step)
    (xs : List α) (w : String) (r : Renderer) :
    forEach body (xs.map f) w r = forEach (fun x => body (f x)) xs w r := by
  induction xs generalizing w r with
  | nil => rfl
  | cons x xs ih =>
    rw [List.map_cons, forEach_cons, forEach_cons]
    congr 1
    funext w1 r1
    exact ih w1 r1

theorem forEach_flatten {α β : Type} (f : α → List β) (body : β → String → Renderer → Step)
    (xs : List α) (w : String) (r : Renderer) :
    forEach body (xs.map f).flatten w r = forEach (fun x => forEach body (f x)) xs w r := by
  induction xs generalizing w r with
  | nil => rfl
  | cons x xs ih =>
    rw [List.map_cons, List.flatten_cons, forEach_append, forEach_cons]
    congr 1
    funext w1 r1
    exact ih w1 r1

theorem runFuncs_append (env : RenderEnv) (xs ys : List FuncCall) (w : String) (r : Renderer) :
    runFuncs env (xs ++ ys) w r = (runFuncs env xs w r).andThen (runFuncs env ys) :=
  forEach_append _ xs ys w r

theorem runFuncs_flatten (env : RenderEnv) (xss : List (List FuncCall)) (w : String)
    (r : Renderer) :
    runFuncs env xss.flatten w r = forEach (fun xs => runFuncs env xs) xss w r := by
  have := forEach_flatten (fun xs : List FuncCall => xs)
    (fun c w r => renderFunc env r c.tmpl w c.data c.dialect) xss w r
  simpa [runFuncs] using this

theorem renderCount_eq (env : RenderEnv) (r : Renderer) (w : String) (cnt : Count)
    (d : Dialect) :
    renderCount env r w cnt d =
      runFuncs env [{ tmpl := .count, data := .count cnt d, dialect := d },
        { tmpl := .has, data := .has cnt d, dialect := d }] w r := by
  unfold renderCount runFuncs
  rw [forEach_cons]
  dsimp only
  rcases h : renderFunc env r .count w (.count cnt d) d with ⟨_ | w1, r1⟩
  · rfl
  · rcases h2 : renderFunc env r1 .has w1 (.has cnt d) d with ⟨_ | w2, r2⟩ <;>
      simp [Step.andThen, forEach, h2]

theorem distinctFirst_filter_of_mem (gets done : List Model) (m : Model) (hm : m ∈ done) :
    ((distinctFirst gets).filter (fun x => x ≠ m)).filter (fun x => x ∉ done) =
      (distinctFirst gets).filter (fun x => x ∉ done) := by
  rw [List.filter_filter]
  apply List.filter_congr
  intro x _
  by_cases hx : x ∈ done
  · simp [hx]
  · have : x ≠ m := fun h => hx (h ▸ hm)
    simp [hx, this]

theorem renderGetLasts_eq (env : RenderEnv) (d : Dialect) (gets : List Model) :
    ∀ (done : List Model) (w : String) (r : Renderer),
      renderGetLasts env d gets done w r =
        runFuncs env (((distinctFirst gets).filter (fun x => x ∉ done)).map (getLastCall d))
          w r := by
  induction gets with
  | nil => intro done w r; rfl
  | cons m rest ih =>
    intro done w r
    by_cases hm : m ∈ done
    · have h1 : renderGetLasts env d (m :: rest) done w r =
          renderGetLasts env d rest done w r := by
        simp [renderGetLasts, hm]
      rw [h1, ih done w r]
      simp only [distinctFirst, List.filter_cons, hm, not_true_eq_false, decide_False,
        Bool.false_eq_true, if_false]
      rw [distinctFirst_filter_of_mem rest done m hm]
    · have hfil : ((distinctFirst (m :: rest)).filter (fun x => x ∉ done)) =
          m :: ((distinctFirst rest).filter (fun x => x ∉ m :: done)) := by
        simp only [distinctFirst, List.filter_cons, hm, not_false_eq_true, decide_True, if_true]
        rw [List.filter_filter]
        congr 1
        apply List.filter_congr
        intro x _
        by_cases hx : x ∈ done <;> by_cases hxm : x = m <;> simp [hx, hxm]
      rw [hfil, List.map_cons]
      unfold runFuncs
      rw [forEach_cons]
      have h1 : renderGetLasts env d (m :: rest) done w r =
          (renderGetLast env r w m d).andThen
            (fun w1 r1 => renderGetLasts env d rest (m :: done) w1 r1) := by
        rcases h : renderGetLast env r w m d with ⟨_ | _, _⟩ <;>
          simp [renderGetLasts, hm, Step.andThen, h]
      rw [h1]
      congr 1
      funext w1 r1
      exact ih (m :: done) w1 r1

theorem renderInserts_eq (env : RenderEnv) (d : Dialect) (xs : List Insert) :
    ∀ (gets : List Model) (w : String) (r : Renderer),
      renderInserts env d xs gets w r =
        match forEach (fun ins w r => renderInsert env r w ins d) xs w r with
        | (.error e, r1) => (.error e, r1)
        | (.ok w1, r1) => (.ok (gets ++ xs.map (fun ins => ins.Model), w1), r1) := by
  induction xs with
  | nil => intro gets w r; simp [renderInserts, forEach]
  | cons x rest ih =>
    intro gets w r
    rcases h : renderInsert env r w x d with ⟨e | w1, r1⟩
    · simp [renderInserts, forEach, h]
    · simp [renderInserts, forEach, h, ih]

theorem renderUpdates_eq (env : RenderEnv) (d : Dialect) (xs : List Update) :
    ∀ (gets : List Model) (w : String) (r : Renderer),
      renderUpdates env d xs gets w r =
        match forEach (fun upd w r => renderUpdate env r w upd d) xs w r with
        | (.error e, r1) => (.error e, r1)
        | (.ok w1, r1) => (.ok (gets ++ xs.map (fun upd => upd.Model), w1), r1) := by
  induction xs with
  | nil => intro gets w r; simp [renderUpdates, forEach]
  | cons x rest ih =>
    intro gets w r
    rcases h : renderUpdate env r w x d with ⟨e | w1, r1⟩
    · simp [renderUpdates, forEach, h]
    · simp [renderUpdates, forEach, h, ih]

theorem renderDialect_chain (env : RenderEnv) (root : Root) (d : Dialect) (w : String)
    (r : Renderer) :
    renderDialect env root d w r =
      (forEach (fun ins w r => renderInsert env r w ins d) root.Inserts w r).andThen
        (fun w1 r1 =>
          (forEach (fun sel w r => renderSelect env r w sel d) root.Selects w1 r1).andThen
            (fun w2 r2 =>
              (forEach (fun cnt w r => renderCount env r w cnt d) root.Counts w2 r2).andThen
                (fun w3 r3 =>
                  (forEach (fun upd w r => renderUpdate env r w upd d) root.Updates w3 r3).andThen
                    (fun w4 r4 =>
                      (forEach (fun del w r => renderDelete env r w del d)
                          root.Deletes w4 r4).andThen
                        (fun w5 r5 =>
                          if (getLastTargets root).length > 0 ∧ ¬ d.Features.Returning then
                            renderGetLasts env d (getLastTargets root) [] w5 r5
                          else (.ok w5, r5)))))) := by
  unfold renderDialect
  rw [renderInserts_eq]
  rcases forEach (fun ins w r => renderInsert env r w ins d) root.Inserts w r
    with ⟨_ | w1, r1⟩
  · rfl
  simp only [Step.andThen]
  rcases forEach (fun sel w r => renderSelect env r w sel d) root.Selects w1 r1
    with ⟨_ | w2, r2⟩
  · rfl
  simp only []
  rcases forEach (fun cnt w r => renderCount env r w cnt d) root.Counts w2 r2
    with ⟨_ | w3, r3⟩
  · rfl
  simp only []
  rw [renderUpdates_eq]
  rcases forEach (fun upd w r => renderUpdate env r w upd d) root.Updates w3 r3
    with ⟨_ | w4, r4⟩
  · rfl
  simp only []
  rcases forEach (fun del w r => renderDelete env r w del d) root.Deletes w4 r4
    with ⟨_ | w5, r5⟩
  · rfl
  simp only [List.nil_append, getLastTargets]

theorem getLast_tail_eq (env : RenderEnv) (root : Root) (d : Dialect) (w : String)
    (r : Renderer) :
    (if (getLastTargets root).length > 0 ∧ ¬ d.Features.Returning then
        renderGetLasts env d (getLastTargets root) [] w r
      else (.ok w, r)) = runFuncs env (getLastFuncs root d) w r := by
  unfold getLastFuncs
  by_cases hret : d.Features.Returning = true
  · simp [hret, runFuncs, forEach]
  · by_cases hlen : (getLastTargets root).length > 0
    · rw [if_pos ⟨hlen, by simpa using hret⟩, renderGetLasts_eq]
      simp [hret]
    · have hnil : getLastTargets root = [] := by
        cases h : getLastTargets root with
        | nil => rfl
        | cons a l => rw [h] at hlen; simp at hlen
      simp [hnil, hret, distinctFirst, runFuncs, forEach]

/-- The body of the dialect loop of `RenderCode` is the sequence of the function
renderings `dialectFuncs`. -/
theorem renderDialect_eq (env : RenderEnv) (root : Root) (d : Dialect) (w : String)
    (r : Renderer) :
    renderDialect env root d w r = runFuncs env (dialectFuncs root d) w r := by
  rw [renderDialect_chain]
  unfold dialectFuncs queryFuncs
  simp only [List.append_assoc]
  rw [runFuncs_append]
  congr 1
  · unfold runFuncs
    rw [forEach_map]
    rfl
  funext w1 r1
  rw [runFuncs_append]
  congr 1
  · unfold runFuncs
    rw [forEach_map]
    congr 1
    funext sel w r
    unfold renderSelect
    split <;> simp_all
  funext w2 r2
  rw [runFuncs_append]
  congr 1
  · rw [runFuncs_flatten, forEach_map]
    congr 1
    funext cnt w r
    exact renderCount_eq env r w cnt d
  funext w3 r3
  rw [runFuncs_append]
  congr 1
  · unfold runFuncs
    rw [forEach_map]
    rfl
  funext w4 r4
  rw [runFuncs_append]
  congr 1
  · unfold runFuncs
    rw [forEach_map]
    congr 1
    funext del w r
    unfold renderDelete
    split <;> simp_all
  funext w5 r5
  exact getLast_tail_eq env root d w5 r5

/-- The dialect loop of `RenderCode` is the sequence of the function renderings
`allFuncs`. -/
theorem renderDialects_eq (env : RenderEnv) (root : Root) (dialects : List Dialect)
    (w : String) (r : Renderer) :
    forEach (renderDialect env root) dialects w r = runFuncs env (allFuncs root dialects) w r := by
  unfold allFuncs
  rw [runFuncs_flatten, forEach_map]
  congr 1
  funext d w1 r1
  exact renderDialect_eq env root d w1 r1

/-! ## Renderer: the signatures a function rendering records -/

theorem mem_addSignature (r : Renderer) (sig s : String) :
    s ∈ (addSignature r sig).signatures ↔ s ∈ r.signatures ∨ s = sig := by
  unfold addSignature
  by_cases h : sig ∈ r.signatures
  · simp only [h, if_true]
    constructor
    · exact Or.inl
    · rintro (h1 | rfl)
      · exact h1
      · exact h
  · simp [h]

theorem addSignature_nodup (r : Renderer) (sig : String) (h : r.signatures.Nodup) :
    (addSignature r sig).signatures.Nodup := by
  unfold addSignature
  by_cases hs : sig ∈ r.signatures
  · simpa [hs] using h
  · simp only [hs, if_false]
    rw [List.nodup_append]
    exact ⟨h, List.nodup_singleton _, by
      intro a ha hb
      rw [List.mem_singleton] at hb
      exact hs (hb ▸ ha)⟩

theorem renderFunc_sig_error (env : RenderEnv) (r : Renderer) (w : String) (c : FuncCall)
    (e : String) (h : env.Render c.tmpl "signature" c.data = .error e) :
    renderFunc env r c.tmpl w c.data c.dialect = (.error (.template e), r) := by
  simp [renderFunc, h]

theorem renderFunc_body_error (env : RenderEnv) (r : Renderer) (w : String) (c : FuncCall)
    (sig e : String) (h1 : env.Render c.tmpl "signature" c.data = .ok sig)
    (h2 : env.Render c.tmpl "body" c.data = .error e) :
    renderFunc env r c.tmpl w c.data c.dialect = (.error (.template e), r) := by
  simp [renderFunc, h1, h2]

theorem renderFunc_decl_error (env : RenderEnv) (r : Renderer) (w : String) (c : FuncCall)
    (sig body e : String) (h1 : env.Render c.tmpl "signature" c.data = .ok sig)
    (h2 : env.Render c.tmpl "body" c.data = .ok body)
    (h3 : env.Render .misc "decl"
      (.decl { ReceiverBase := c.dialect.Name, Signature := sig, Body := body }) = .error e) :
    renderFunc env r c.tmpl w c.data c.dialect = (.error (.template e), r) := by
  simp [renderFunc, h1, h2, h3]

theorem renderFunc_ok (env : RenderEnv) (r : Renderer) (w : String) (c : FuncCall)
    (sig body text : String) (h1 : env.Render c.tmpl "signature" c.data = .ok sig)
    (h2 : env.Render c.tmpl "body" c.data = .ok body)
    (h3 : env.Render .misc "decl"
      (.decl { ReceiverBase := c.dialect.Name, Signature := sig, Body := body }) = .ok text) :
    renderFunc env r c.tmpl w c.data c.dialect =
      (.ok (w ++ text), if isExported env sig then addSignature r sig else r) := by
  simp [renderFunc, h1, h2, h3]

theorem renderFunc_signatures (env : RenderEnv) (r : Renderer) (w : String) (c : FuncCall)
    (s : String) :
    s ∈ (renderFunc env r c.tmpl w c.data c.dialect).2.signatures ↔
      s ∈ r.signatures ∨ (producedBy env c s ∧ isExported env s = true) := by
  unfold producedBy
  rcases hsig : env.Render c.tmpl "signature" c.data with e | sig
  · rw [renderFunc_sig_error env r w c e hsig]
    simp
  rcases hbody : env.Render c.tmpl "body" c.data with e | body
  · rw [renderFunc_body_error env r w c sig e hsig hbody]
    simp
  rcases hdecl : env.Render .misc "decl"
      (.decl { ReceiverBase := c.dialect.Name, Signature := sig, Body := body }) with e | text
  · rw [renderFunc_decl_error env r w c sig body e hsig hbody hdecl]
    simp only [Except.ok.injEq, exists_and_left, exists_eq_left']
    constructor
    · exact Or.inl
    · rintro (h | ⟨⟨rfl, t, ht⟩, _⟩)
      · exact h
      · rw [hdecl] at ht
        cases ht
  · rw [renderFunc_ok env r w c sig body text hsig hbody hdecl]
    simp only [Except.ok.injEq, exists_and_left, exists_eq_left']
    by_cases hexp : isExported env sig = true
    · simp only [hexp, if_true, mem_addSignature]
      constructor
      · rintro (h | rfl)
        · exact Or.inl h
        · exact Or.inr ⟨⟨rfl, text, hdecl⟩, hexp⟩
      · rintro (h | ⟨⟨rfl, _⟩, _⟩)
        · exact Or.inl h
        · exact Or.inr rfl
    · simp only [hexp]
      constructor
      · exact Or.inl
      · rintro (h | ⟨⟨rfl, _⟩, h2⟩)
        · exact h
        · exact absurd h2 hexp

theorem renderFunc_nodup (env : RenderEnv) (r : Renderer) (w : String) (c : FuncCall)
    (h : r.signatures.Nodup) :
    (renderFunc env r c.tmpl w c.data c.dialect).2.signatures.Nodup := by
  rcases hsig : env.Render c.tmpl "signature" c.data with e | sig
  · rw [renderFunc_sig_error env r w c e hsig]
    exact h
  rcases hbody : env.Render c.tmpl "body" c.data with e | body
  · rw [renderFunc_body_error env r w c sig e hsig hbody]
    exact h
  rcases hdecl : env.Render .misc "decl"
      (.decl { ReceiverBase := c.dialect.Name, Signature := sig, Body := body }) with e | text
  · rw [renderFunc_decl_error env r w c sig body e hsig hbody hdecl]
    exact h
  · rw [renderFunc_ok env r w c sig body text hsig hbody hdecl]
    by_cases hexp : isExported env sig = true
    · simpa [hexp] using addSignature_nodup r sig h
    · simpa [hexp] using h

theorem runAll_signatures (env : RenderEnv) (calls : List FuncCall) :
    ∀ (w : String) (r : Renderer) (s : String),
      s ∈ (runAll env calls w r).signatures ↔
        s ∈ r.signatures ∨ ∃ c ∈ calls, producedBy env c s ∧ isExported env s = true := by
  induction calls with
  | nil => intro w r s; simp [runAll]
  | cons c rest ih =>
    intro w r s
    have hstep := renderFunc_signatures env r w c s
    unfold runAll
    rcases h : renderFunc env r c.tmpl w c.data c.dialect with ⟨e | w1, r1⟩
    · rw [h] at hstep
      simp only [ih, List.mem_cons, exists_eq_or_imp]
      rw [hstep]
      tauto
    · rw [h] at hstep
      simp only [ih, List.mem_cons, exists_eq_or_imp]
      rw [hstep]
      tauto

theorem runAll_nodup (env : RenderEnv) (calls : List FuncCall) :
    ∀ (w : String) (r : Renderer), r.signatures.Nodup →
      (runAll env calls w r).signatures.Nodup := by
  induction calls with
  | nil => intro w r h; exact h
  | cons c rest ih =>
    intro w r h
    have hstep := renderFunc_nodup env r w c h
    unfold runAll
    rcases hr : renderFunc env r c.tmpl w c.data c.dialect with ⟨e | w1, r1⟩
    · rw [hr] at hstep
      exact ih _ _ hstep
    · rw [hr] at hstep
      exact ih _ _ hstep

theorem runFuncs_signatures (env : RenderEnv) (calls : List FuncCall) :
    ∀ (w : String) (r : Renderer) (w1 : String) (r1 : Renderer),
      runFuncs env calls w r = (.ok w1, r1) →
      ∀ s, s ∈ r1.signatures ↔
        s ∈ r.signatures ∨ ∃ c ∈ calls, producedBy env c s ∧ isExported env s = true := by
  induction calls with
  | nil =>
    intro w r w1 r1 h s
    simp only [runFuncs, forEach, Prod.mk.injEq, Except.ok.injEq] at h
    obtain ⟨_, rfl⟩ := h
    simp
  | cons c rest ih =>
    intro w r w1 r1 h s
    have hstep := renderFunc_signatures env r w c s
    unfold runFuncs at h
    rw [forEach_cons] at h
    rcases hr : renderFunc env r c.tmpl w c.data c.dialect with ⟨e | w2, r2⟩
    · rw [hr] at h
      simp [Step.andThen] at h
    · rw [hr] at h hstep
      simp only [Step.andThen] at h
      have := ih w2 r2 w1 r1 h s
      simp only [List.mem_cons, exists_eq_or_imp]
      rw [this, hstep]
      tauto

theorem runFuncs_nodup (env : RenderEnv) (calls : List FuncCall) :
    ∀ (w : String) (r : Renderer), r.signatures.Nodup →
      (runFuncs env calls w r).2.signatures.Nodup := by
  induction calls with
  | nil => intro w r h; exact h
  | cons c rest ih =>
    intro w r h
    have hstep := renderFunc_nodup env r w c h
    unfold runFuncs
    rw [forEach_cons]
    rcases hr : renderFunc env r c.tmpl w c.data c.dialect with ⟨e | w1, r1⟩
    · rw [hr] at hstep
      exact hstep
    · rw [hr] at hstep
      exact ih w1 r1 hstep

/-! ## Renderer: the footer -/

theorem charsLe_total : ∀ a b : List Char, charsLe a b = true ∨ charsLe b a = true := by
  intro a
  induction a with
  | nil => intro b; left; rfl
  | cons x xs ih =>
    intro b
    cases b with
    | nil => right; rfl
    | cons y ys =>
      simp only [charsLe]
      by_cases h1 : x.toNat < y.toNat
      · left; simp [h1]
      · by_cases h2 : y.toNat < x.toNat
        · right; simp [h2]
        · simp only [h1, h2, if_false]
          exact ih ys

theorem charsLe_trans : ∀ a b c : List Char,
    charsLe a b = true → charsLe b c = true → charsLe a c = true := by
  intro a
  induction a with
  | nil => intro b c _ _; rfl
  | cons x xs ih =>
    intro b c hab hbc
    cases b with
    | nil => simp [charsLe] at hab
    | cons y ys =>
      cases c with
      | nil => simp [charsLe] at hbc
      | cons z zs =>
        simp only [charsLe] at hab hbc ⊢
        by_cases h1 : x.toNat < y.toNat
        · by_cases h2 : y.toNat < z.toNat
          · have : x.toNat < z.toNat := by omega
            simp [this]
          · by_cases h3 : z.toNat < y.toNat
            · simp [h2, h3] at hbc
            · have : x.toNat < z.toNat := by omega
              simp [this]
        · by_cases h1b : y.toNat < x.toNat
          · simp [h1, h1b] at hab
          · simp only [h1, h1b, if_false] at hab
            by_cases h2 : y.toNat < z.toNat
            · have : x.toNat < z.toNat := by omega
              simp [this]
            · by_cases h3 : z.toNat < y.toNat
              · simp [h2, h3] at hbc
              · simp only [h2, h3, if_false] at hbc
                have h4 : ¬ x.toNat < z.toNat := by omega
                have h5 : ¬ z.toNat < x.toNat := by omega
                simp only [h4, h5, if_false]
                exact ih ys zs hab hbc

theorem char_eq_of_toNat (x y : Char) (h : x.toNat = y.toNat) : x = y := by
  apply Char.ext
  apply UInt32.ext
  exact h

theorem charsLe_antisymm : ∀ a b : List Char,
    charsLe a b = true → charsLe b a = true → a = b := by
  intro a
  induction a with
  | nil =>
    intro b _ hba
    cases b with
    | nil => rfl
    | cons y ys => simp [charsLe] at hba
  | cons x xs ih =>
    intro b hab hba
    cases b with
    | nil => simp [charsLe] at hab
    | cons y ys =>
      simp only [charsLe] at hab hba
      by_cases h1 : x.toNat < y.toNat
      · have h2 : ¬ y.toNat < x.toNat := by omega
        simp [h1, h2] at hba
      · by_cases h2 : y.toNat < x.toNat
        · simp [h1, h2] at hab
        · simp only [h1, h2, if_false] at hab hba
          have hxy : x = y := char_eq_of_toNat x y (by omega)
          rw [hxy, ih ys hab hba]

theorem sortStrings_sorted (l : List String) : (sortStrings l).Sorted strLe := by
  haveI : IsTotal String strLe := ⟨fun a b => charsLe_total a.data b.data⟩
  haveI : IsTrans String strLe := ⟨fun a b c => charsLe_trans a.data b.data c.data⟩
  exact List.sorted_insertionSort strLe l

/-- The sorted list does not depend on the order in which the keys of the map
are visited. -/
theorem sortStrings_perm (l1 l2 : List String) (h : l1.Perm l2) :
    sortStrings l1 = sortStrings l2 := by
  haveI : IsAntisymm String strLe :=
    ⟨fun a b hab hba => String.ext (charsLe_antisymm a.data b.data hab hba)⟩
  have hperm : (sortStrings l1).Perm (sortStrings l2) :=
    ((List.perm_insertionSort strLe l1).trans h).trans (List.perm_insertionSort strLe l2).symm
  exact List.eq_of_perm_of_sorted hperm (sortStrings_sorted l1) (sortStrings_sorted l2)

theorem mem_sortStrings (l : List String) (s : String) : s ∈ sortStrings l ↔ s ∈ l :=
  (List.perm_insertionSort strLe l).mem_iff

theorem sortStrings_nodup (l : List String) (h : l.Nodup) : (sortStrings l).Nodup :=
  (List.perm_insertionSort strLe l).nodup_iff.2 h

theorem isExported_empty (env : RenderEnv) (h : env.IsUpper (Char.ofNat 0xFFFD) = false) :
    isExported env "" = false := by
  simpa [isExported, decodeRuneInString] using h

theorem isExported_cons (env : RenderEnv) (c : Char) (cs : List Char) :
    isExported env (String.mk (c :: cs)) = env.IsUpper c := rfl

/-- C2: for every sequence of function renderings performed by a Renderer made
by `New`, failed ones and repeated signatures included, the list `Funcs` that
`renderFooter` hands to the footer template is in ascending string order, has no
repeated entry, and holds a signature if and only if some successful call of
`renderFunc` produced it and `isExported` holds for it; `isExported` is the
upper-case test of the first rune, and is false for the empty signature. The
list is the same in whatever order the keys of the map are collected. -/
theorem footer_funcs (env : RenderEnv) (options : Options) (calls : List FuncCall)
    (w w1 : String) (hrune : env.IsUpper (Char.ofNat 0xFFFD) = false) :
    renderFooter env (runAll env calls w (New options)) w1 =
        (match env.Render .footer ""
            (.footer (footerFuncs (runAll env calls w (New options)))) with
          | .error e => .error (.template e)
          | .ok text => .ok (w1 ++ text)) ∧
      (footerFuncs (runAll env calls w (New options))).Sorted strLe ∧
      (footerFuncs (runAll env calls w (New options))).Nodup ∧
      (∀ sig, sig ∈ footerFuncs (runAll env calls w (New options)) ↔
        (∃ c ∈ calls, producedBy env c sig) ∧ isExported env sig = true) ∧
      (∀ keys : List String, keys.Perm (runAll env calls w (New options)).signatures →
        sortStrings keys = footerFuncs (runAll env calls w (New options))) ∧
      isExported env "" = false ∧
      (∀ c cs, isExported env (String.mk (c :: cs)) = env.IsUpper c) := by
  refine ⟨rfl, sortStrings_sorted _, ?_, ?_, fun keys h => sortStrings_perm _ _ h,
    isExported_empty env hrune, isExported_cons env⟩
  · exact sortStrings_nodup _ (runAll_nodup env calls w (New options) List.nodup_nil)
  · intro sig
    unfold footerFuncs
    rw [mem_sortStrings, runAll_signatures]
    simp only [New, List.not_mem_nil, false_or]
    constructor
    · rintro ⟨c, hc, hp, he⟩
      exact ⟨⟨c, hc, hp⟩, he⟩
    · rintro ⟨⟨c, hc, hp⟩, he⟩
      exact ⟨c, hc, hp, he⟩

/-! ## Renderer: distinct target models -/

theorem mem_distinctFirst (l : List Model) (m : Model) : m ∈ distinctFirst l ↔ m ∈ l := by
  induction l with
  | nil => simp [distinctFirst]
  | cons x rest ih =>
    simp only [distinctFirst, List.mem_cons, List.mem_filter, ih]
    by_cases h : m = x
    · simp [h]
    · simp [h]

theorem distinctFirst_nodup (l : List Model) : (distinctFirst l).Nodup := by
  induction l with
  | nil => simp [distinctFirst]
  | cons x rest ih =>
    simp only [distinctFirst, List.nodup_cons]
    refine ⟨?_, ih.filter _⟩
    simp [List.mem_filter]

theorem distinctFirst_order (l : List Model) :
    (distinctFirst l).Pairwise (fun a b => l.indexOf a < l.indexOf b) := by
  induction l with
  | nil => simp [distinctFirst]
  | cons x rest ih =>
    simp only [distinctFirst, List.pairwise_cons]
    constructor
    · intro b hb
      have hbx : b ≠ x := by
        have := (List.mem_filter.1 hb).2
        simpa using this
      rw [List.indexOf_cons_self, List.indexOf_cons_ne _ (Ne.symm hbx)]
      exact Nat.succ_pos _
    · have hsub : ((distinctFirst rest).filter (fun y => y ≠ x)).Pairwise
          (fun a b => rest.indexOf a < rest.indexOf b) :=
        ih.sublist (List.filter_sublist _)
      refine hsub.imp_of_mem ?_
      intro a b ha hb hab
      have hax : a ≠ x := by simpa using (List.mem_filter.1 ha).2
      have hbx : b ≠ x := by simpa using (List.mem_filter.1 hb).2
      rw [List.indexOf_cons_ne _ (Ne.symm hax), List.indexOf_cons_ne _ (Ne.symm hbx)]
      exact Nat.succ_lt_succ hab

theorem mem_getLastTargets (root : Root) (m : Model) :
    m ∈ getLastTargets root ↔
      (∃ ins ∈ root.Inserts, ins.Model = m) ∨ (∃ upd ∈ root.Updates, upd.Model = m) := by
  simp [getLastTargets, List.mem_append, List.mem_map]

theorem queryFuncs_not_get_last (root : Root) (d : Dialect) :
    ∀ c ∈ queryFuncs root d, c.tmpl ≠ .get_last := by
  intro c hc
  simp only [queryFuncs, List.mem_append, List.mem_map, List.mem_flatten] at hc
  rcases hc with ⟨_, _, rfl⟩ | ⟨sel, _, rfl⟩ | ⟨l, ⟨_, _, rfl⟩, hl⟩ | ⟨_, _, rfl⟩ | ⟨del, _, rfl⟩
  · simp
  · by_cases h : sel.One = true <;> simp [h]
  · simp only [List.mem_cons, List.mem_singleton, List.not_mem_nil, or_false] at hl
    rcases hl with rfl | rfl <;> simp
  · simp
  · by_cases h : del.One = true <;> simp [h]

/-! ## Renderer: runs in which every template render succeeds -/

theorem concat_append (a b : List String) : concat (a ++ b) = concat a ++ concat b := by
  induction a with
  | nil => simp [concat]
  | cons t rest ih => simp [concat, ih, String.append_assoc]

theorem renderFunc_all_ok (env : RenderEnv)
    (hall : ∀ t n x, ∃ s, env.Render t n x = .ok s)
    (r : Renderer) (w : String) (c : FuncCall) :
    ∃ r1, renderFunc env r c.tmpl w c.data c.dialect = (.ok (w ++ funcText env c), r1) := by
  obtain ⟨sig, h1⟩ := hall c.tmpl "signature" c.data
  obtain ⟨body, h2⟩ := hall c.tmpl "body" c.data
  obtain ⟨text, h3⟩ := hall .misc "decl"
    (.decl { ReceiverBase := c.dialect.Name, Signature := sig, Body := body })
  refine ⟨if isExported env sig then addSignature r sig else r, ?_⟩
  rw [renderFunc_ok env r w c sig body text h1 h2 h3]
  simp [funcText, h1, h2, h3]

theorem runFuncs_all_ok (env : RenderEnv)
    (hall : ∀ t n x, ∃ s, env.Render t n x = .ok s) (calls : List FuncCall) :
    ∀ (w : String) (r : Renderer),
      ∃ r1, runFuncs env calls w r = (.ok (w ++ concat (calls.map (funcText env))), r1) := by
  induction calls with
  | nil => intro w r; exact ⟨r, by simp [runFuncs, forEach, concat]⟩
  | cons c rest ih =>
    intro w r
    obtain ⟨r1, h1⟩ := renderFunc_all_ok env hall r w c
    obtain ⟨r2, h2⟩ := ih (w ++ funcText env c) r1
    refine ⟨r2, ?_⟩
    unfold runFuncs at h2 ⊢
    rw [forEach_cons, h1]
    simp only [Step.andThen, h2, List.map_cons, concat, String.append_assoc]

theorem renderStructs_all_ok (env : RenderEnv)
    (hall : ∀ t n x, ∃ s, env.Render t n x = .ok s) (sels : List Select) :
    ∀ w : String, ∃ t, renderStructs env sels w = .ok (w ++ t) := by
  induction sels with
  | nil => intro w; exact ⟨"", by simp [renderStructs]⟩
  | cons sel rest ih =>
    intro w
    by_cases h : sel.Fields.length < 2
    · obtain ⟨t, ht⟩ := ih w
      exact ⟨t, by simp [renderStructs, h, ht]⟩
    · obtain ⟨t1, h1⟩ := hall .misc "struct" (.resultStruct sel)
      obtain ⟨t, ht⟩ := ih (w ++ t1)
      refine ⟨t1 ++ t, ?_⟩
      simp [renderStructs, h, renderStruct, h1, ht, String.append_assoc]

/-! ## Renderer: the header -/

theorem headerDialects_supported (env : RenderEnv) (root : Root) (ds : List Dialect) :
    ∀ params : HeaderParams, (∀ d ∈ ds, supportedName d.Name) →
      headerDialects env root ds params =
        .ok { params with
              ExtraImports := params.ExtraImports ++ ds.map headerImportOf,
              Dialects := params.Dialects ++
                ds.map (fun d => { Name := d.Name, SchemaSQL := env.RenderSchema d root }) } := by
  induction ds with
  | nil => intro params _; simp [headerDialects]
  | cons d rest ih =>
    intro params h
    have hd : supportedName d.Name := h d (List.mem_cons_self _ _)
    have hrest : ∀ x ∈ rest, supportedName x.Name := fun x hx => h x (List.mem_cons_of_mem _ hx)
    rcases hd with hpg | hsq
    · simp [headerDialects, driverOf, hpg, ih _ hrest, headerImportOf]
    · simp [headerDialects, driverOf, hsq, ih _ hrest, headerImportOf]

theorem headerDialects_unsupported (env : RenderEnv) (root : Root) (pre : List Dialect)
    (d : Dialect) (post : List Dialect) :
    ∀ params : HeaderParams, (∀ x ∈ pre, supportedName x.Name) → ¬ supportedName d.Name →
      headerDialects env root (pre ++ d :: post) params =
        .error (.unsupportedDialect d.Name) := by
  induction pre with
  | nil =>
    intro params _ hd
    have h1 : ¬ d.Name = "postgres" := fun h => hd (Or.inl h)
    have h2 : ¬ d.Name = "sqlite3" := fun h => hd (Or.inr h)
    simp [headerDialects, driverOf, h1, h2]
  | cons x rest ih =>
    intro params h hd
    have hx : supportedName x.Name := h x (List.mem_cons_self _ _)
    have hrest : ∀ y ∈ rest, supportedName y.Name := fun y hy => h y (List.mem_cons_of_mem _ hy)
    rcases hx with hpg | hsq
    · simp [headerDialects, driverOf, hpg, ih _ hrest hd]
    · simp [headerDialects, driverOf, hsq, ih _ hrest hd]

theorem headerParams_supported (env : RenderEnv) (r : Renderer) (root : Root)
    (ds : List Dialect) (h : ∀ d ∈ ds, supportedName d.Name) :
    headerParams env r root ds =
      .ok { Package := r.options.Package,
            ExtraImports := ds.map headerImportOf,
            Dialects := ds.map (fun d => { Name := d.Name, SchemaSQL := env.RenderSchema d root }),
            Structs := env.ModelStructsFromIR root.Models,
            StructsReverse := (env.ModelStructsFromIR root.Models).reverse } := by
  simp [headerParams, headerDialects_supported env root ds _ h]

/-- A list with an unsupported dialect splits at the first one. -/
theorem first_unsupported (ds : List Dialect) (h : ∃ d ∈ ds, ¬ supportedName d.Name) :
    ∃ pre d post, ds = pre ++ d :: post ∧ (∀ x ∈ pre, supportedName x.Name) ∧
      ¬ supportedName d.Name := by
  induction ds with
  | nil => obtain ⟨d, hd, _⟩ := h; cases hd
  | cons x rest ih =>
    by_cases hx : supportedName x.Name
    · obtain ⟨d, hd, hbad⟩ := h
      have hmem : d ∈ rest := by
        rcases List.mem_cons.1 hd with rfl | hmem
        · exact absurd hx hbad
        · exact hmem
      obtain ⟨pre, d1, post, heq, hpre, hd1⟩ := ih ⟨d, hmem, hbad⟩
      refine ⟨x :: pre, d1, post, by simp [heq], ?_, hd1⟩
      intro y hy
      rcases List.mem_cons.1 hy with rfl | hy
      · exact hx
      · exact hpre y hy
    · exact ⟨[], x, rest, rfl, by simp, hx⟩

/-! ## RenderCode -/

theorem renderBuffer_steps (env : RenderEnv) (r : Renderer) (root : Root)
    (dialects : List Dialect) (buf lt buf1 : String)
    (h1 : renderHeader env r "" root dialects = .ok buf)
    (h2 : env.Render .lru "" .nil = .ok lt)
    (h3 : renderStructs env root.Selects (buf ++ lt) = .ok buf1) :
    renderBuffer env r root dialects =
      (runFuncs env (allFuncs root dialects) buf1 r).andThen
        (fun buf2 r1 =>
          match renderFooter env r1 buf2 with
          | .error e => (.error e, r1)
          | .ok buf3 => (.ok buf3, r1)) := by
  unfold renderBuffer
  simp only [h1, h2, h3, renderDialects_eq]
  rcases runFuncs env (allFuncs root dialects) buf1 r with ⟨e | buf2, r1⟩ <;> rfl

theorem renderBuffer_ok_inv (env : RenderEnv) (r : Renderer) (root : Root)
    (dialects : List Dialect) (out : String) (r1 : Renderer)
    (h : renderBuffer env r root dialects = (.ok out, r1)) :
    ∃ ht lt buf1 buf2 ft,
      renderHeader env r "" root dialects = .ok ht ∧
      env.Render .lru "" .nil = .ok lt ∧
      renderStructs env root.Selects (ht ++ lt) = .ok buf1 ∧
      runFuncs env (allFuncs root dialects) buf1 r = (.ok buf2, r1) ∧
      env.Render .footer "" (.footer (footerFuncs r1)) = .ok ft ∧ out = buf2 ++ ft := by
  rcases h1 : renderHeader env r "" root dialects with e | buf
  · simp [renderBuffer, h1] at h
  rcases h2 : env.Render .lru "" .nil with e | lt
  · simp [renderBuffer, h1, h2] at h
  rcases h3 : renderStructs env root.Selects (buf ++ lt) with e | buf1
  · simp [renderBuffer, h1, h2, h3] at h
  rw [renderBuffer_steps env r root dialects buf lt buf1 h1 h2 h3] at h
  rcases h4 : runFuncs env (allFuncs root dialects) buf1 r with ⟨e | buf2, r2⟩
  · simp [h4, Step.andThen] at h
  rw [h4] at h
  simp only [Step.andThen] at h
  rcases h5 : env.Render .footer "" (.footer (footerFuncs r2)) with e | ft
  · simp [renderFooter, h5] at h
  simp only [renderFooter, h5, Prod.mk.injEq, Except.ok.injEq] at h
  obtain ⟨rfl, rfl⟩ := h
  exact ⟨buf, lt, buf1, buf2, ft, rfl, rfl, h3, h4, h5, rfl⟩

/-! ## Renderer: dependence on the signatures held on entry -/

theorem renderFunc_fst (env : RenderEnv) (r r2 : Renderer) (w : String) (c : FuncCall) :
    (renderFunc env r c.tmpl w c.data c.dialect).1 =
      (renderFunc env r2 c.tmpl w c.data c.dialect).1 := by
  rcases hsig : env.Render c.tmpl "signature" c.data with e | sig
  · rw [renderFunc_sig_error env r w c e hsig, renderFunc_sig_error env r2 w c e hsig]
  rcases hbody : env.Render c.tmpl "body" c.data with e | body
  · rw [renderFunc_body_error env r w c sig e hsig hbody,
      renderFunc_body_error env r2 w c sig e hsig hbody]
  rcases hdecl : env.Render .misc "decl"
      (.decl { ReceiverBase := c.dialect.Name, Signature := sig, Body := body }) with e | text
  · rw [renderFunc_decl_error env r w c sig body e hsig hbody hdecl,
      renderFunc_decl_error env r2 w c sig body e hsig hbody hdecl]
  · rw [renderFunc_ok env r w c sig body text hsig hbody hdecl,
      renderFunc_ok env r2 w c sig body text hsig hbody hdecl]

theorem renderFunc_text (env : RenderEnv) (r : Renderer) (w : String) (c : FuncCall)
    (w1 : String) (r1 : Renderer)
    (h : renderFunc env r c.tmpl w c.data c.dialect = (.ok w1, r1)) :
    w1 = w ++ funcText env c := by
  rcases hsig : env.Render c.tmpl "signature" c.data with e | sig
  · rw [renderFunc_sig_error env r w c e hsig] at h
    simp at h
  rcases hbody : env.Render c.tmpl "body" c.data with e | body
  · rw [renderFunc_body_error env r w c sig e hsig hbody] at h
    simp at h
  rcases hdecl : env.Render .misc "decl"
      (.decl { ReceiverBase := c.dialect.Name, Signature := sig, Body := body }) with e | text
  · rw [renderFunc_decl_error env r w c sig body e hsig hbody hdecl] at h
    simp at h
  · rw [renderFunc_ok env r w c sig body text hsig hbody hdecl] at h
    simp only [Prod.mk.injEq, Except.ok.injEq] at h
    rw [← h.1]
    simp [funcText, hsig, hbody, hdecl]

theorem runFuncs_text (env : RenderEnv) (calls : List FuncCall) :
    ∀ (w : String) (r : Renderer) (w1 : String) (r1 : Renderer),
      runFuncs env calls w r = (.ok w1, r1) →
      w1 = w ++ concat (calls.map (funcText env)) := by
  induction calls with
  | nil =>
    intro w r w1 r1 h
    simp only [runFuncs, forEach, Prod.mk.injEq, Except.ok.injEq] at h
    simp [concat, ← h.1]
  | cons c rest ih =>
    intro w r w1 r1 h
    unfold runFuncs at h
    rw [forEach_cons] at h
    rcases hr : renderFunc env r c.tmpl w c.data c.dialect with ⟨e | w2, r2⟩
    · rw [hr] at h
      simp [Step.andThen] at h
    · rw [hr] at h
      simp only [Step.andThen] at h
      have h1 := renderFunc_text env r w c w2 r2 hr
      have h2 := ih w2 r2 w1 r1 h
      rw [h2, h1]
      simp [concat, String.append_assoc]

theorem addSignature_options (r : Renderer) (sig : String) :
    (addSignature r sig).options = r.options := rfl

theorem renderFunc_options (env : RenderEnv) (r : Renderer) (w : String) (c : FuncCall) :
    (renderFunc env r c.tmpl w c.data c.dialect).2.options = r.options := by
  rcases hsig : env.Render c.tmpl "signature" c.data with e | sig
  · rw [renderFunc_sig_error env r w c e hsig]
  rcases hbody : env.Render c.tmpl "body" c.data with e | body
  · rw [renderFunc_body_error env r w c sig e hsig hbody]
  rcases hdecl : env.Render .misc "decl"
      (.decl { ReceiverBase := c.dialect.Name, Signature := sig, Body := body }) with e | text
  · rw [renderFunc_decl_error env r w c sig body e hsig hbody hdecl]
  · rw [renderFunc_ok env r w c sig body text hsig hbody hdecl]
    by_cases hexp : isExported env sig = true <;> simp [hexp, addSignature_options]

theorem renderFunc_same (env : RenderEnv) (r r2 : Renderer) (w : String) (c : FuncCall)
    (h : sameSignatures r r2) :
    sameSignatures (renderFunc env r c.tmpl w c.data c.dialect).2
      (renderFunc env r2 c.tmpl w c.data c.dialect).2 := by
  obtain ⟨hopt, hnd, hnd2, hmem⟩ := h
  refine ⟨?_, renderFunc_nodup env r w c hnd, renderFunc_nodup env r2 w c hnd2, ?_⟩
  · rw [renderFunc_options, renderFunc_options, hopt]
  · intro s
    rw [renderFunc_signatures, renderFunc_signatures, hmem s]

theorem runFuncs_same (env : RenderEnv) (calls : List FuncCall) :
    ∀ (w : String) (r r2 : Renderer), sameSignatures r r2 →
      (runFuncs env calls w r).1 = (runFuncs env calls w r2).1 ∧
        sameSignatures (runFuncs env calls w r).2 (runFuncs env calls w r2).2 := by
  induction calls with
  | nil => intro w r r2 h; exact ⟨rfl, h⟩
  | cons c rest ih =>
    intro w r r2 h
    have hfst := renderFunc_fst env r r2 w c
    have hsame := renderFunc_same env r r2 w c h
    unfold runFuncs at ih ⊢
    rw [forEach_cons, forEach_cons]
    rcases hr : renderFunc env r c.tmpl w c.data c.dialect with ⟨e | w1, r1⟩ <;>
      rcases hr2 : renderFunc env r2 c.tmpl w c.data c.dialect with ⟨e2 | w2, r3⟩ <;>
      rw [hr, hr2] at hfst hsame <;> simp only at hfst hsame
    · cases hfst
      exact ⟨rfl, hsame⟩
    · cases hfst
    · cases hfst
    · cases hfst
      exact ih w1 r1 r3 hsame

theorem footerFuncs_same (r r2 : Renderer) (h : sameSignatures r r2) :
    footerFuncs r = footerFuncs r2 := by
  obtain ⟨_, hnd, hnd2, hmem⟩ := h
  exact sortStrings_perm _ _ ((List.perm_ext_iff_of_nodup hnd hnd2).2 hmem)

theorem renderHeader_same (env : RenderEnv) (r r2 : Renderer) (w : String) (root : Root)
    (dialects : List Dialect) (h : r.options = r2.options) :
    renderHeader env r w root dialects = renderHeader env r2 w root dialects := by
  unfold renderHeader headerParams
  rw [h]

theorem renderBuffer_same (env : RenderEnv) (r r2 : Renderer) (root : Root)
    (dialects : List Dialect) (h : sameSignatures r r2) :
    (renderBuffer env r root dialects).1 = (renderBuffer env r2 root dialects).1 := by
  have hhead := renderHeader_same env r r2 "" root dialects h.1
  rcases h1 : renderHeader env r2 "" root dialects with e | buf
  · rw [h1] at hhead
    simp [renderBuffer, h1, hhead]
  rw [h1] at hhead
  rcases h2 : env.Render .lru "" .nil with e | lt
  · simp [renderBuffer, h1, hhead, h2]
  rcases h3 : renderStructs env root.Selects (buf ++ lt) with e | buf1
  · simp [renderBuffer, h1, hhead, h2, h3]
  rw [renderBuffer_steps env r root dialects buf lt buf1 hhead h2 h3,
    renderBuffer_steps env r2 root dialects buf lt buf1 h1 h2 h3]
  obtain ⟨hfst, hsame⟩ := runFuncs_same env (allFuncs root dialects) buf1 r r2 h
  rcases hr : runFuncs env (allFuncs root dialects) buf1 r with ⟨e | w1, r1⟩ <;>
    rcases hr2 : runFuncs env (allFuncs root dialects) buf1 r2 with ⟨e2 | w2, r3⟩ <;>
    rw [hr, hr2] at hfst hsame <;> simp only at hfst hsame
  · cases hfst
    rfl
  · cases hfst
  · cases hfst
  · cases hfst
    simp only [Step.andThen, renderFooter, footerFuncs_same r1 r3 hsame]
    rcases env.Render .footer "" (.footer (footerFuncs r3)) with e | ft <;> rfl

theorem RenderCode_same (env : RenderEnv) (r r2 : Renderer) (root : Root)
    (dialects : List Dialect) (h : sameSignatures r r2) :
    (RenderCode env r root dialects).1 = (RenderCode env r2 root dialects).1 := by
  have hbuf := renderBuffer_same env r r2 root dialects h
  unfold RenderCode
  rcases hr : renderBuffer env r root dialects with ⟨e | w1, r1⟩ <;>
    rcases hr2 : renderBuffer env r2 root dialects with ⟨e2 | w2, r3⟩ <;>
    rw [hr, hr2] at hbuf <;> simp only at hbuf
  · cases hbuf
    rfl
  · cases hbuf
  · cases hbuf
  · cases hbuf
    rcases hf : env.formatSource w1 with e | t <;> simp [hf]

theorem concat_allFuncs (env : RenderEnv) (root : Root) (ds : List Dialect) :
    concat ((allFuncs root ds).map (funcText env)) =
      concat (ds.map (fun d => concat ((queryFuncs root d).map (funcText env)) ++
        (if d.Features.Returning then ""
         else concat ((distinctFirst (getLastTargets root)).map
           (fun m => funcText env (getLastCall d m)))))) := by
  induction ds with
  | nil => rfl
  | cons d rest ih =>
    have ih2 : concat (List.map (funcText env) (List.map (dialectFuncs root) rest).flatten) =
        concat (rest.map (fun d => concat ((queryFuncs root d).map (funcText env)) ++
          (if d.Features.Returning then ""
           else concat ((distinctFirst (getLastTargets root)).map
             (fun m => funcText env (getLastCall d m)))))) := ih
    simp only [allFuncs, List.map_cons, List.flatten_cons, List.map_append, concat_append,
      concat, ih2, dialectFuncs, getLastFuncs]
    by_cases hret : d.Features.Returning = true
    · simp [hret, concat]
    · simp [hret, List.map_map, Function.comp_def]

/-- C1: when every template render succeeds (and the header accepts the
dialects), the text `RenderCode` builds is the header, the helper, the result
structs, then for every dialect of the list in order the functions of the
queries followed by the get-last accessors of that dialect, then the footer.
The get-last accessors of a dialect are none when its `Returning` is true, and
otherwise one per distinct model that is the target of an insert or update of
the root, in the order of first occurrence with inserts before updates; no query
function is a get-last accessor. -/
theorem RenderCode_getLast (env : RenderEnv) (r : Renderer) (root : Root)
    (dialects : List Dialect)
    (hall : ∀ t n x, ∃ s, env.Render t n x = .ok s)
    (hsupp : ∀ d ∈ dialects, d.Name = "postgres" ∨ d.Name = "sqlite3") :
    (∃ params ht lt st ft r1,
      headerParams env r root dialects = .ok params ∧
      env.Render .header "" (.header params) = .ok ht ∧
      env.Render .lru "" .nil = .ok lt ∧
      renderStructs env root.Selects (ht ++ lt) = .ok (ht ++ lt ++ st) ∧
      env.Render .footer "" (.footer (footerFuncs r1)) = .ok ft ∧
      renderBuffer env r root dialects =
        (.ok (ht ++ lt ++ st ++
          concat (dialects.map (fun d => concat ((queryFuncs root d).map (funcText env)) ++
            (if d.Features.Returning then ""
             else concat ((distinctFirst (getLastTargets root)).map
               (fun m => funcText env (getLastCall d m)))))) ++ ft), r1)) ∧
    (∀ d w r0, renderDialect env root d w r0 =
      runFuncs env (queryFuncs root d ++
        (if d.Features.Returning then []
         else (distinctFirst (getLastTargets root)).map (getLastCall d))) w r0) ∧
    (∀ d, ∀ c ∈ queryFuncs root d, c.tmpl ≠ .get_last) ∧
    (distinctFirst (getLastTargets root)).Nodup ∧
    (∀ m, m ∈ distinctFirst (getLastTargets root) ↔
      (∃ ins ∈ root.Inserts, ins.Model = m) ∨ (∃ upd ∈ root.Updates, upd.Model = m)) ∧
    (distinctFirst (getLastTargets root)).Pairwise
      (fun a b => (getLastTargets root).indexOf a < (getLastTargets root).indexOf b) ∧
    getLastTargets root =
      root.Inserts.map (fun ins => ins.Model) ++ root.Updates.map (fun upd => upd.Model) := by
  refine ⟨?_, ?_, queryFuncs_not_get_last root, distinctFirst_nodup _, ?_,
    distinctFirst_order _, rfl⟩
  · have hparams := headerParams_supported env r root dialects hsupp
    obtain ⟨ht, hht⟩ := hall .header "" (.header
      { Package := r.options.Package,
        ExtraImports := dialects.map headerImportOf,
        Dialects :=
          dialects.map (fun d => { Name := d.Name, SchemaSQL := env.RenderSchema d root }),
        Structs := env.ModelStructsFromIR root.Models,
        StructsReverse := (env.ModelStructsFromIR root.Models).reverse })
    obtain ⟨lt, hlt⟩ := hall .lru "" .nil
    obtain ⟨st, hst⟩ := renderStructs_all_ok env hall root.Selects (ht ++ lt)
    obtain ⟨r1, hrun⟩ := runFuncs_all_ok env hall (allFuncs root dialects) (ht ++ lt ++ st) r
    obtain ⟨ft, hft⟩ := hall .footer "" (.footer (footerFuncs r1))
    have hheader : renderHeader env r "" root dialects = .ok ht := by
      simp [renderHeader, hparams, hht]
    refine ⟨_, ht, lt, st, ft, r1, hparams, hht, hlt, hst, hft, ?_⟩
    rw [renderBuffer_steps env r root dialects ht lt _ hheader hlt hst, hrun]
    simp only [Step.andThen, renderFooter, hft, concat_allFuncs]
  · intro d w r0
    rw [renderDialect_eq]
    rfl
  · intro m
    rw [mem_distinctFirst, mem_getLastTargets]

theorem RenderCode_header_error (env : RenderEnv) (r : Renderer) (root : Root)
    (dialects : List Dialect) (e : RenderError)
    (h : headerParams env r root dialects = .error e) :
    RenderCode env r root dialects = (.error e, r) := by
  simp [RenderCode, renderBuffer, renderHeader, h]

/-- C7: a dialect list that holds a dialect named neither `postgres` nor `sqlite3`
makes `RenderCode` fail with the `unsupported dialect` error that names such a
dialect, the first one in list order, and return no text; no driver stands in
for an unknown name. When every name is known, the header parameters hold
one import and one schema entry per dialect in list order, the import being
`github.com/lib/pq` for `postgres` and `github.com/mattn/go-sqlite3` for
`sqlite3`. -/
theorem RenderCode_unsupported_dialect (env : RenderEnv) (r : Renderer) (root : Root)
    (dialects : List Dialect) :
    (∀ pre d post, dialects = pre ++ d :: post →
      (∀ x ∈ pre, x.Name = "postgres" ∨ x.Name = "sqlite3") →
      d.Name ≠ "postgres" → d.Name ≠ "sqlite3" →
      RenderCode env r root dialects = (.error (.unsupportedDialect d.Name), r)) ∧
    ((∃ d ∈ dialects, d.Name ≠ "postgres" ∧ d.Name ≠ "sqlite3") →
      ∃ d ∈ dialects, d.Name ≠ "postgres" ∧ d.Name ≠ "sqlite3" ∧
        RenderCode env r root dialects = (.error (.unsupportedDialect d.Name), r)) ∧
    ((∀ d ∈ dialects, d.Name = "postgres" ∨ d.Name = "sqlite3") →
      headerParams env r root dialects =
        .ok { Package := r.options.Package,
              ExtraImports := dialects.map (fun d =>
                { As := "_",
                  Package := if d.Name = "postgres" then "github.com/lib/pq"
                    else "github.com/mattn/go-sqlite3" }),
              Dialects := dialects.map (fun d =>
                { Name := d.Name, SchemaSQL := env.RenderSchema d root }),
              Structs := env.ModelStructsFromIR root.Models,
              StructsReverse := (env.ModelStructsFromIR root.Models).reverse }) := by
  have hfirst : ∀ pre d post, dialects = pre ++ d :: post →
      (∀ x ∈ pre, x.Name = "postgres" ∨ x.Name = "sqlite3") →
      d.Name ≠ "postgres" → d.Name ≠ "sqlite3" →
      RenderCode env r root dialects = (.error (.unsupportedDialect d.Name), r) := by
    intro pre d post heq hpre h1 h2
    apply RenderCode_header_error
    unfold headerParams
    rw [heq]
    exact headerDialects_unsupported env root pre d post _ hpre
      (fun h => h.elim h1 h2)
  refine ⟨hfirst, ?_, ?_⟩
  · rintro ⟨d, hd, h1, h2⟩
    obtain ⟨pre, d1, post, heq, hpre, hd1⟩ :=
      first_unsupported dialects ⟨d, hd, fun h => h.elim h1 h2⟩
    have hn1 : d1.Name ≠ "postgres" := fun h => hd1 (Or.inl h)
    have hn2 : d1.Name ≠ "sqlite3" := fun h => hd1 (Or.inr h)
    exact ⟨d1, by rw [heq]; simp, hn1, hn2, hfirst pre d1 post heq hpre hn1 hn2⟩
  · intro h
    exact headerParams_supported env r root dialects h

/-- C7 at concrete inputs: a list with two unknown dialects after a known one, and
a list of the two known dialects. -/
theorem RenderCode_unsupported_dialect_witness :
    RenderCode sampleEnv (New { Package := "db" }) sampleRoot
        [samplePostgres, sampleMysql, sampleOracle] =
      (.error (.unsupportedDialect "mysql"), New { Package := "db" }) ∧
    headerParams sampleEnv (New { Package := "db" }) sampleRoot [sampleSqlite, samplePostgres] =
      .ok { Package := "db",
            ExtraImports := [{ As := "_", Package := "github.com/mattn/go-sqlite3" },
              { As := "_", Package := "github.com/lib/pq" }],
            Dialects := [{ Name := "sqlite3", SchemaSQL := "schema sqlite3" },
              { Name := "postgres", SchemaSQL := "schema postgres" }],
            Structs := [{ ptr := 10 }],
            StructsReverse := [{ ptr := 10 }] } :=
  ⟨(RenderCode_unsupported_dialect sampleEnv (New { Package := "db" }) sampleRoot
      [samplePostgres, sampleMysql, sampleOracle]).1 [samplePostgres] sampleMysql [sampleOracle]
      rfl (by decide) (by decide) (by decide),
   (RenderCode_unsupported_dialect sampleEnv (New { Package := "db" }) sampleRoot
      [sampleSqlite, samplePostgres]).2.2 (by decide)⟩

/-- C9: when the renders that precede the formatter succeed (the buffer `buf` is
built), `RenderCode` returns no error: it returns the output of the formatter
when the formatter succeeds, and `buf` itself when the formatter fails. -/
theorem RenderCode_format (env : RenderEnv) (r : Renderer) (root : Root)
    (dialects : List Dialect) (buf : String) (r1 : Renderer)
    (h : renderBuffer env r root dialects = (.ok buf, r1)) :
    (∀ t, env.formatSource buf = .ok t → RenderCode env r root dialects = (.ok t, r1)) ∧
    (∀ e, env.formatSource buf = .error e → RenderCode env r root dialects = (.ok buf, r1)) ∧
    (∃ out, RenderCode env r root dialects = (.ok out, r1)) := by
  refine ⟨?_, ?_, ?_⟩
  · intro t ht
    simp [RenderCode, h, ht]
  · intro e he
    simp [RenderCode, h, he]
  · rcases hf : env.formatSource buf with e | t
    · exact ⟨buf, by simp [RenderCode, h, hf]⟩
    · exact ⟨t, by simp [RenderCode, h, hf]⟩

/-- C9 at a concrete input, with a formatter that fails. -/
theorem RenderCode_format_witness :
    renderBuffer sampleEnv (New { Package := "db" }) sampleRoot [samplePostgres] =
      (.ok "H;L;postgres.Create();postgres.Get();postgres.Get();Create,Get",
        { signatures := ["Create", "Get"], options := { Package := "db" } }) ∧
    RenderCode sampleEnv (New { Package := "db" }) sampleRoot [samplePostgres] =
      (.ok "H;L;postgres.Create();postgres.Get();postgres.Get();Create,Get",
        { signatures := ["Create", "Get"], options := { Package := "db" } }) :=
  ⟨by decide,
   (RenderCode_format sampleEnv (New { Package := "db" }) sampleRoot [samplePostgres]
      "H;L;postgres.Create();postgres.Get();postgres.Get();Create,Get"
      { signatures := ["Create", "Get"], options := { Package := "db" } }
      (by decide)).2.1 "unformatted" rfl⟩

/-- C8 (counterexample): a Renderer that has served a call for a root with an
insert and two updates returns, for the empty root, a text whose footer lists
`Create` and `Get`; a Renderer fresh from `New` returns for the same root and
dialects a text with an empty footer. -/
theorem RenderCode_depends_on_earlier_calls :
    (RenderCode sampleEnv
        (RenderCode sampleEnv (New { Package := "db" }) sampleRoot [samplePostgres]).2
        emptyRoot [samplePostgres]).1 = .ok "H;L;Create,Get" ∧
    (RenderCode sampleEnv (New { Package := "db" }) emptyRoot [samplePostgres]).1 =
      .ok "H;L;" ∧
    (RenderCode sampleEnv
        (RenderCode sampleEnv (New { Package := "db" }) sampleRoot [samplePostgres]).2
        emptyRoot [samplePostgres]).1 ≠
      (RenderCode sampleEnv (New { Package := "db" }) emptyRoot [samplePostgres]).1 := by
  decide

theorem renderBuffer_nodup (env : RenderEnv) (r : Renderer) (root : Root)
    (dialects : List Dialect) (hnd : r.signatures.Nodup) :
    (renderBuffer env r root dialects).2.signatures.Nodup := by
  rcases h1 : renderHeader env r "" root dialects with e | buf
  · simpa [renderBuffer, h1] using hnd
  rcases h2 : env.Render .lru "" .nil with e | lt
  · simpa [renderBuffer, h1, h2] using hnd
  rcases h3 : renderStructs env root.Selects (buf ++ lt) with e | buf1
  · simpa [renderBuffer, h1, h2, h3] using hnd
  rw [renderBuffer_steps env r root dialects buf lt buf1 h1 h2 h3]
  have hrun := runFuncs_nodup env (allFuncs root dialects) buf1 r hnd
  rcases hr : runFuncs env (allFuncs root dialects) buf1 r with ⟨e | w1, r1⟩
  · rw [hr] at hrun
    exact hrun
  · rw [hr] at hrun
    simp only [Step.andThen]
    rcases renderFooter env r1 w1 with e | w2 <;> exact hrun

theorem RenderCode_nodup (env : RenderEnv) (r : Renderer) (root : Root)
    (dialects : List Dialect) (hnd : r.signatures.Nodup) :
    (RenderCode env r root dialects).2.signatures.Nodup := by
  have hbuf := renderBuffer_nodup env r root dialects hnd
  unfold RenderCode
  rcases hr : renderBuffer env r root dialects with ⟨e | w1, r1⟩
  · rw [hr] at hbuf
    exact hbuf
  · rw [hr] at hbuf
    rcases hf : env.formatSource w1 with e | t <;> simpa [hf] using hbuf

/-- C8 (amended): the artifact returned by `RenderCode` is determined by the IR,
the dialect list and the set of exported signatures that the Renderer holds on
entry: two Renderers with the same options that hold the same set of signatures
return the same artifact (or the same error). In a call that builds its buffer,
the buffer is the header, the helper, the result structs, the texts of the
function renderings of the call in order, and the footer; the list handed to
the footer template is sorted, has no repetition, and holds a signature if and
only if the Renderer held it on entry, from an earlier call, or a function
rendering of this call produced it and it is exported. For a Renderer that holds
none on entry, as one fresh from `New`, the footer lists the exported signatures
of this call only. The signatures a Renderer holds are the keys of a map, so no
key is held twice: this holds of `New` and is kept by every call. -/
theorem RenderCode_signatures_on_entry (env : RenderEnv) (r : Renderer) (root : Root)
    (dialects : List Dialect) (hnd : r.signatures.Nodup) :
    (∀ r2 : Renderer, r2.options = r.options → r2.signatures.Nodup →
      (∀ s, s ∈ r2.signatures ↔ s ∈ r.signatures) →
      (RenderCode env r2 root dialects).1 = (RenderCode env r root dialects).1) ∧
    (RenderCode env r root dialects).2.signatures.Nodup ∧
    (∀ buf r1, renderBuffer env r root dialects = (.ok buf, r1) →
      (RenderCode env r root dialects).2 = r1 ∧
      (∃ ht lt buf1 ft,
        renderHeader env r "" root dialects = .ok ht ∧
        env.Render .lru "" .nil = .ok lt ∧
        renderStructs env root.Selects (ht ++ lt) = .ok buf1 ∧
        env.Render .footer "" (.footer (footerFuncs r1)) = .ok ft ∧
        buf = buf1 ++ concat ((allFuncs root dialects).map (funcText env)) ++ ft) ∧
      (footerFuncs r1).Sorted strLe ∧
      (footerFuncs r1).Nodup ∧
      (∀ s, s ∈ footerFuncs r1 ↔
        s ∈ r.signatures ∨
          ∃ c ∈ allFuncs root dialects, producedBy env c s ∧ isExported env s = true) ∧
      (r.signatures = [] →
        ∀ s, s ∈ footerFuncs r1 ↔
          ∃ c ∈ allFuncs root dialects, producedBy env c s ∧ isExported env s = true)) := by
  refine ⟨?_, RenderCode_nodup env r root dialects hnd, ?_⟩
  · intro r2 hopt hnd2 hmem
    exact RenderCode_same env r2 r root dialects ⟨hopt, hnd2, hnd, hmem⟩
  · intro buf r1 h
    obtain ⟨ht, lt, buf1, buf2, ft, hhead, hlru, hst, hrun, hft, hout⟩ :=
      renderBuffer_ok_inv env r root dialects buf r1 h
    have hmem : ∀ s, s ∈ footerFuncs r1 ↔
        s ∈ r.signatures ∨
          ∃ c ∈ allFuncs root dialects, producedBy env c s ∧ isExported env s = true := by
      intro s
      unfold footerFuncs
      rw [mem_sortStrings]
      exact runFuncs_signatures env (allFuncs root dialects) buf1 r buf2 r1 hrun s
    have hnd1 : r1.signatures.Nodup := by
      have := runFuncs_nodup env (allFuncs root dialects) buf1 r hnd
      rw [hrun] at this
      exact this
    refine ⟨?_, ⟨ht, lt, buf1, ft, hhead, hlru, hst, hft, ?_⟩, sortStrings_sorted _,
      sortStrings_nodup _ hnd1, hmem, ?_⟩
    · rcases hf : env.formatSource buf with e | t <;> simp [RenderCode, h, hf]
    · rw [hout, runFuncs_text env (allFuncs root dialects) buf1 r buf2 r1 hrun]
    · intro hnil s
      rw [hmem s, hnil]
      simp

/-- C8 (amended) at a concrete input: the second call of the counterexample, and
a Renderer that holds the same two signatures in the other order. -/
theorem RenderCode_signatures_on_entry_witness :
    ({ signatures := ["Create", "Get"], options := { Package := "db" } } :
      Renderer).signatures.Nodup ∧
    (RenderCode sampleEnv { signatures := ["Get", "Create"], options := { Package := "db" } }
        emptyRoot [samplePostgres]).1 =
      (RenderCode sampleEnv { signatures := ["Create", "Get"], options := { Package := "db" } }
        emptyRoot [samplePostgres]).1 ∧
    (RenderCode sampleEnv { signatures := ["Create", "Get"], options := { Package := "db" } }
        emptyRoot [samplePostgres]).1 = .ok "H;L;Create,Get" :=
  ⟨by decide,
   (RenderCode_signatures_on_entry sampleEnv
      { signatures := ["Create", "Get"], options := { Package := "db" } }
      emptyRoot [samplePostgres] (by decide)).1
      { signatures := ["Get", "Create"], options := { Package := "db" } } rfl (by decide)
      (fun s => by simp [or_comm]),
   by decide⟩

/-- C1 at a concrete input: a dialect without `Returning` and one with it, for a
root whose model is the target of one insert and two updates. -/
theorem RenderCode_getLast_witness :
    (∀ t n x, ∃ s, sampleEnv.Render t n x = .ok s) ∧
    (∀ d ∈ [sampleSqlite, samplePostgres], d.Name = "postgres" ∨ d.Name = "sqlite3") ∧
    (∀ d w r0, renderDialect sampleEnv sampleRoot d w r0 =
      runFuncs sampleEnv (queryFuncs sampleRoot d ++
        (if d.Features.Returning then []
         else (distinctFirst (getLastTargets sampleRoot)).map (getLastCall d))) w r0) ∧
    distinctFirst (getLastTargets sampleRoot) = [{ ptr := 10 }] :=
  ⟨fun t n x => ⟨sampleText t n x, rfl⟩, by decide,
   (RenderCode_getLast sampleEnv (New { Package := "db" }) sampleRoot
      [sampleSqlite, samplePostgres] (fun t n x => ⟨sampleText t n x, rfl⟩) (by decide)).2.1,
   by decide⟩

/-- C2 at a concrete input: the same exported signature rendered for two
dialects, and an unexported one. -/
theorem footer_funcs_witness :
    sampleEnv.IsUpper (Char.ofNat 0xFFFD) = false ∧
    footerFuncs (runAll sampleEnv
      [{ tmpl := .ins, data := .nil, dialect := samplePostgres },
       { tmpl := .ins, data := .nil, dialect := sampleSqlite },
       { tmpl := .get_last, data := .nil, dialect := sampleSqlite }] ""
      (New { Package := "db" })) = ["Create"] ∧
    (footerFuncs (runAll sampleEnv
      [{ tmpl := .ins, data := .nil, dialect := samplePostgres },
       { tmpl := .ins, data := .nil, dialect := sampleSqlite },
       { tmpl := .get_last, data := .nil, dialect := sampleSqlite }] ""
      (New { Package := "db" }))).Nodup :=
  ⟨by decide, by decide,
   (footer_funcs sampleEnv { Package := "db" }
      [{ tmpl := .ins, data := .nil, dialect := samplePostgres },
       { tmpl := .ins, data := .nil, dialect := sampleSqlite },
       { tmpl := .get_last, data := .nil, dialect := sampleSqlite }] "" "" (by decide)).2.2.1⟩

/-- C3 at a concrete input: three tuple nodes applied in order. -/
theorem flagField_duplicates_witness :
    (∀ n, ∃ b, sampleSyntaxEnv.boolFromValue n true = some b ∧ b.Pos = n.getPos) ∧
    ∃ b, sampleSyntaxEnv.boolFromValue (.tuple { pos := ⟨"a.dbx", 10, 2, 3⟩ }) true = some b ∧
      b.Pos = ⟨"a.dbx", 10, 2, 3⟩ ∧
      applyAll (flagField sampleSyntaxEnv "field" "nullable") none
          [{ pos := ⟨"a.dbx", 10, 2, 3⟩ }, { pos := ⟨"a.dbx", 20, 3, 3⟩ },
           { pos := ⟨"a.dbx", 30, 4, 3⟩ }] =
        (none :: [({ pos := ⟨"a.dbx", 20, 3, 3⟩ } : TupleNode),
            { pos := ⟨"a.dbx", 30, 4, 3⟩ }].map (fun n => some
          { message := sampleSyntaxEnv.posString n.pos ++ ": " ++
              ("nullable" ++ " already defined on " ++ "field" ++ ". previous definition at " ++
                sampleSyntaxEnv.posString ⟨"a.dbx", 10, 2, 3⟩),
            position := n.pos }),
         some b) :=
  ⟨fun _ => ⟨_, rfl, rfl⟩,
   (flagField_duplicates sampleSyntaxEnv "field" "nullable" (fun _ => ⟨_, rfl, rfl⟩)).1
      { pos := ⟨"a.dbx", 10, 2, 3⟩ }
      [{ pos := ⟨"a.dbx", 20, 3, 3⟩ }, { pos := ⟨"a.dbx", 30, 4, 3⟩ }]⟩

end Dbx
